import Mathlib

/-!
Verification of the PySearchZips scan-and-merge indexing pipeline.

This file gives a shallow embedding of the core of the repository:
the SQLite-backed store (`database.py`), the archive scanner
(`scanner.py`), the sequential and threaded drive processors
(`drive_processor.py`), the bounded hashing routine
(`py_zip_scanner.py`) and the query engine (`database.py`), and proves
the specified properties about them.

Modelling conventions:
- SQLite rows become Lean structures; columns that no property reads
  (content hash of the container row, timestamps) are omitted.
- The `uuid4` identity of a container row is modelled as a pair
  (store tag, per-store counter): ids are opaque, never reused, and
  distinct stores draw from disjoint namespaces, matching the spec's
  assumption that independently generated 128-bit ids never collide.
- Filesystem access (`zipfile.ZipFile`, `os.stat`) is modelled by a
  `ZipContents` datum carried by each container: either a parsed entry
  listing or one of the exception outcomes the scanner catches.
- The video-extension predicate (`os.path.splitext` lowering plus a
  membership test in the configured extension set) is abstracted as a
  Boolean parameter `isVideoExt`; no claim depends on its internals.
-/

namespace PySearchZips

/-- Python `os.path.basename` on POSIX paths: the part of the path
after the last slash (the scanners run on Unix/WSL mount points). -/
def basename (s : String) : String :=
  String.mk (s.data.foldl (fun acc c => if c = '/' then [] else acc ++ [c]) [])

/-- One element of the `video_files` list handed to the store:
the 4-tuple `(file_name, file_size, file_path_in_zip, file_hash)`
produced by `ZipFileScanner.scan_zip_for_videos`. -/
structure VideoFile where
  file_name : String
  file_size : Nat
  file_path_in_zip : String
  file_hash : Option String
  deriving DecidableEq

/-- A row of the `zip_files` table (`database.py` lines 30-42).
The table has UNIQUE constraints on `zip_file_path` and on `uuid`;
`file_size`, `file_hash`, timestamps are omitted (no claim reads them). -/
structure ZipRow where
  drive_letter : String
  zip_file_name : String
  zip_file_path : String
  uuid : Nat × Nat
  deriving DecidableEq

/-- A row of the `file_contents` table (`database.py` lines 44-55). -/
structure FileRow where
  zip_uuid : Nat × Nat
  file_name : String
  file_size : Nat
  file_path_in_zip : String
  deriving DecidableEq

/-- The persisted state behind one `DatabaseManager`.  `tag` and
`nextId` model the source of fresh `uuid4` identities. -/
structure Store where
  tag : Nat
  nextId : Nat
  zip_files : List ZipRow
  file_contents : List FileRow
  deriving DecidableEq

/-- A fresh database file, as produced by `DatabaseManager.init_database`. -/
def emptyStore (tag : Nat) : Store :=
  ⟨tag, 0, [], []⟩

/-- SQLite errors that `database.py` can raise and does not catch. -/
inductive DbError
  | integrityError
  deriving DecidableEq

/-- `DatabaseManager.insert_zip_data` (`database.py` lines 88-142):
returns `None` without touching the store when `video_files` is empty;
otherwise inserts one `zip_files` row (fresh uuid) and one
`file_contents` row per video file.  The INSERT raises
`IntegrityError` when the UNIQUE constraint on `zip_file_path` is hit. -/
def insert_zip_data (db : Store) (zip_path : String)
    (video_files : List VideoFile) (drive_letter : String) :
    Except DbError (Store × Option (Nat × Nat)) :=
  if video_files.isEmpty then .ok (db, none)
  else
    let zip_uuid := (db.tag, db.nextId)
    let zip_file_name := basename zip_path
    if db.zip_files.any fun r => r.zip_file_path == zip_path then
      .error .integrityError
    else
      let newRows := video_files.map fun vf =>
        FileRow.mk zip_uuid vf.file_name vf.file_size vf.file_path_in_zip
      .ok (⟨db.tag, db.nextId + 1,
            db.zip_files ++ [ZipRow.mk drive_letter zip_file_name zip_path zip_uuid],
            db.file_contents ++ newRows⟩,
           some zip_uuid)

/-- Number of container records in a store. -/
def Store.zipCount (db : Store) : Nat := db.zip_files.length

/-- Number of entry records in a store. -/
def Store.fileCount (db : Store) : Nat := db.file_contents.length

/-- Total byte sum over all entry records of a store. -/
def Store.byteSum (db : Store) : Nat :=
  (db.file_contents.map FileRow.file_size).sum

/-- The container paths currently stored. -/
def Store.paths (db : Store) : List String :=
  db.zip_files.map ZipRow.zip_file_path

/-! ## Archive scanner (`scanner.py`) -/

/-- One `zipfile.ZipInfo` of a container's listing. -/
structure FileInfo where
  filename : String
  file_size : Nat
  is_dir : Bool
  deriving DecidableEq

/-- What `zipfile.ZipFile(zip_path)` yields for a container on disk:
either the parsed entry listing, or one of the exception outcomes that
`scan_zip_for_videos` catches (`BadZipFile`, `PermissionError`, `OSError`). -/
inductive ZipContents
  | ok (infos : List FileInfo)
  | badZipFile
  | permissionError
  | osError
  deriving DecidableEq

/-- A container file on disk: its path and what opening it yields. -/
structure ZipFile where
  path : String
  contents : ZipContents
  deriving DecidableEq

/-- `ZipFileScanner.is_target_file` (`scanner.py` lines 206-213) with the
extension test abstracted as `isVideoExt`. -/
def is_target_file (isVideoExt : String → Bool) (filename : String)
    (all_files : Bool) : Bool :=
  if all_files then true else isVideoExt filename

/-- `ZipFileScanner.scan_zip_for_videos` (`scanner.py` lines 215-264):
on a parse or read failure returns the empty list (the exception is
caught, logged and not re-raised); otherwise returns one tuple per
non-directory entry passing the target predicate, with hash `None`. -/
def scan_zip_for_videos (isVideoExt : String → Bool) (z : ZipFile)
    (all_files : Bool) : List VideoFile :=
  match z.contents with
  | .ok infos =>
    (infos.filter fun fi =>
        !fi.is_dir && is_target_file isVideoExt fi.filename all_files).map
      fun fi => ⟨basename fi.filename, fi.file_size, fi.filename, none⟩
  | .badZipFile => []
  | .permissionError => []
  | .osError => []

/-- A container whose open fails (corrupt, unreadable, I/O error). -/
def ZipFile.unreadable (z : ZipFile) : Prop :=
  z.contents = .badZipFile ∨ z.contents = .permissionError ∨ z.contents = .osError

/-! ## Drive processing (`drive_processor.py`)

The two `process_drive` implementations (sequential and threaded)
differ only in console locking and output; their store-and-result
behaviour is the single function below.  `get_drive_letter`
(`scanner.py` lines 131-149, platform inspection) is abstracted as a
function parameter. -/

/-- `DriveProcessingResult` (`drive_processor.py` lines 18-36). -/
structure DriveProcessingResult where
  drive : String
  zip_count : Nat
  video_count : Nat
  error : Option String
  deriving DecidableEq

/-- `DriveProcessingResult.success`: no recorded error. -/
def DriveProcessingResult.success (r : DriveProcessingResult) : Bool :=
  r.error.isNone

/-- A storage volume as the orchestrator sees it: its identifier and
what `find_zip_files_for_drive` yields — the discovered container
list, or the exception a failing enumeration raises. -/
structure Volume where
  drive : String
  find : Except String (List ZipFile)

/-- `BaseDriveProcessor.process_zip_file` (`drive_processor.py` lines
82-112): scan the container; when the scan finds entries, insert and
report `(1, count)`; otherwise report `(0, 0)` without inserting. -/
def process_zip_file (isVideoExt : String → Bool)
    (get_drive_letter : String → String) (all_files : Bool)
    (db : Store) (z : ZipFile) : Except DbError (Store × Nat × Nat) :=
  let video_files := scan_zip_for_videos isVideoExt z all_files
  if video_files.isEmpty then .ok (db, 0, 0)
  else
    match insert_zip_data db z.path video_files (get_drive_letter z.path) with
    | .error e => .error e
    | .ok (db1, _) => .ok (db1, 1, video_files.length)

/-- The per-drive loop over discovered containers inside
`process_drive` (`drive_processor.py` lines 176-183 and 242-249).
A raised database error stops the loop and is carried out; the store
keeps whatever was inserted before the fault (each insert commits). -/
def processZips (isVideoExt : String → Bool)
    (get_drive_letter : String → String) (all_files : Bool)
    (db : Store) : List ZipFile → Store × Nat × Nat × Option DbError
  | [] => (db, 0, 0, none)
  | z :: rest =>
    match process_zip_file isVideoExt get_drive_letter all_files db z with
    | .error e => (db, 0, 0, some e)
    | .ok (db1, dz, dv) =>
      let r := processZips isVideoExt get_drive_letter all_files db1 rest
      (r.1, dz + r.2.1, dv + r.2.2.1, r.2.2.2)

/-- `process_drive` (`drive_processor.py` lines 159-199 / 222-266):
the whole body runs under `try`; any unhandled fault — a failing
container enumeration or a raised database error — is caught at this
per-volume boundary and recorded as a failure result with zeroed
counts.  Inserts committed before the fault remain in the store. -/
def process_drive (isVideoExt : String → Bool)
    (get_drive_letter : String → String) (all_files : Bool)
    (db : Store) (v : Volume) : Store × DriveProcessingResult :=
  match v.find with
  | .error e => (db, ⟨v.drive, 0, 0, some e⟩)
  | .ok zips =>
    match processZips isVideoExt get_drive_letter all_files db zips with
    | (db1, _, _, some _) => (db1, ⟨v.drive, 0, 0, some "IntegrityError"⟩)
    | (db1, tz, tv, none) => (db1, ⟨v.drive, tz, tv, none⟩)

/-- `SequentialDriveProcessor.process_all_drives` (`drive_processor.py`
lines 201-212): one shared store, volumes in order, totals summed over
successful volumes only. -/
def seqProcessAllDrives (isVideoExt : String → Bool)
    (get_drive_letter : String → String) (all_files : Bool)
    (db : Store) : List Volume → Store × Nat × Nat
  | [] => (db, 0, 0)
  | v :: rest =>
    let s := process_drive isVideoExt get_drive_letter all_files db v
    let r := seqProcessAllDrives isVideoExt get_drive_letter all_files s.1 rest
    if s.2.success then (r.1, s.2.zip_count + r.2.1, s.2.video_count + r.2.2)
    else r

/-- `ThreadedDriveProcessor._process_drive_with_db` (`drive_processor.py`
lines 327-334): worker `i` processes its volume into a fresh private
store; store tag `i + 1` keeps worker identities disjoint from the
canonical store (tag 0), matching the no-collision property of
`uuid4`. -/
def workerStore (isVideoExt : String → Bool)
    (get_drive_letter : String → String) (all_files : Bool)
    (i : Nat) (v : Volume) : Store :=
  (process_drive isVideoExt get_drive_letter all_files (emptyStore (i + 1)) v).1

/-- The worker stores of a threaded run from worker index `k` on, in
volume order. -/
def workerStoresFrom (isVideoExt : String → Bool)
    (get_drive_letter : String → String) (all_files : Bool)
    (k : Nat) : List Volume → List Store
  | [] => []
  | v :: vs =>
    workerStore isVideoExt get_drive_letter all_files k v ::
      workerStoresFrom isVideoExt get_drive_letter all_files (k + 1) vs

/-- The worker stores of a threaded run, in volume order. -/
def workerStores (isVideoExt : String → Bool)
    (get_drive_letter : String → String) (all_files : Bool)
    (vols : List Volume) : List Store :=
  workerStoresFrom isVideoExt get_drive_letter all_files 0 vols

/-- The per-volume results of a threaded run from worker index `k` on
(`ThreadedDriveProcessor.process_all_drives` lines 280-302: every
worker is awaited; a worker's fault is recorded in its own result and
cancels nothing). -/
def threadedResultsFrom (isVideoExt : String → Bool)
    (get_drive_letter : String → String) (all_files : Bool)
    (k : Nat) : List Volume → List DriveProcessingResult
  | [] => []
  | v :: vs =>
    (process_drive isVideoExt get_drive_letter all_files
      (emptyStore (k + 1)) v).2 ::
      threadedResultsFrom isVideoExt get_drive_letter all_files (k + 1) vs

/-- The per-volume results of a threaded run, in volume order. -/
def threadedResults (isVideoExt : String → Bool)
    (get_drive_letter : String → String) (all_files : Bool)
    (vols : List Volume) : List DriveProcessingResult :=
  threadedResultsFrom isVideoExt get_drive_letter all_files 0 vols

/-! ## Merge engine

`DatabaseManager.merge_databases` is invoked by every merge call site
(`drive_processor.py` line 311, `zip_scanner.py` line 386, the tests)
but no definition exists anywhere under the repository sources; the
merge engine below is therefore modelled from the specification. -/

/-- The `MergeSummary` of spec section 4.3: counts plus the rejected
units, one `(volume id, container path)` pair per conflict. -/
structure MergeSummary where
  containersMerged : Nat
  entriesMerged : Nat
  conflicts : List (String × String)
  deriving DecidableEq

/-- The `(volume id, container path)` key of one container record. -/
def pairKey (z : ZipRow) : String × String :=
  (z.drive_letter, z.zip_file_path)

/-- The `(volume id, container path)` key pairs present in a store. -/
def Store.pairs (db : Store) : List (String × String) :=
  db.zip_files.map pairKey

/-- Modelled from the spec: `DatabaseManager.merge_databases` has no
definition under the repository sources (only call sites), so merging
one worker store follows spec sections 4.3 and 7: each container
record whose `(volumeId, containerPath)` is already present in the
canonical store is a rejected unit (`ConflictOnMerge`) and its entries
are not copied; every other container record and its entry records
are inserted as-is (no re-keying). -/
def mergeStep (worker : Store) (acc : Store × MergeSummary) (z : ZipRow) :
    Store × MergeSummary :=
  let c := acc.1
  if c.pairs.any fun p => p == (z.drive_letter, z.zip_file_path) then
    (c, ⟨acc.2.containersMerged, acc.2.entriesMerged,
         acc.2.conflicts ++ [(z.drive_letter, z.zip_file_path)]⟩)
  else
    let moved := worker.file_contents.filter fun f => f.zip_uuid == z.uuid
    (⟨c.tag, c.nextId, c.zip_files ++ [z], c.file_contents ++ moved⟩,
     ⟨acc.2.containersMerged + 1, acc.2.entriesMerged + moved.length,
      acc.2.conflicts⟩)

/-- Modelled from the spec: merging one worker store, container by
container, using `mergeStep` above. -/
def mergeWorkerStore (canonical : Store) (worker : Store) :
    Store × MergeSummary :=
  worker.zip_files.foldl (mergeStep worker) (canonical, ⟨0, 0, []⟩)

/-- Modelled from the spec: folding one more worker store into the
canonical store, accumulating the summary. -/
def mergeDbStep (acc : Store × MergeSummary) (w : Store) :
    Store × MergeSummary :=
  let r := mergeWorkerStore acc.1 w
  (r.1, ⟨acc.2.containersMerged + r.2.containersMerged,
         acc.2.entriesMerged + r.2.entriesMerged,
         acc.2.conflicts ++ r.2.conflicts⟩)

/-- Modelled from the spec: folding every worker store into the
canonical store in the order supplied (spec section 4.3); summaries
accumulate across stores. -/
def merge_databases (canonical : Store) (workers : List Store) :
    Store × MergeSummary :=
  workers.foldl mergeDbStep (canonical, ⟨0, 0, []⟩)

/-! ## The merge call as the code actually makes it (`drive_processor.py`
lines 304-319) -/

/-- The methods defined in the body of `class DatabaseManager`
(`database.py` lines 16-346), exactly as in the source. -/
def dbManagerMethods : List String :=
  ["__init__", "init_database", "insert_zip_data", "get_database_summary",
   "search_files", "list_all_videos", "get_file_extraction_info",
   "get_file_by_uuid", "get_zip_info_by_uuid", "list_zip_archives", "close"]

/-- Python attribute lookup on a `DatabaseManager` instance: the class
defines no `__getattr__`, so a name outside the method table raises
`AttributeError`. -/
def getattrDatabaseManager (name : String) : Except String Unit :=
  if dbManagerMethods.contains name then .ok ()
  else .error ("AttributeError: 'DatabaseManager' object has no attribute '" ++ name ++ "'")

/-- State at the start of the merge step of
`ThreadedDriveProcessor.process_all_drives`: the canonical store and
the worker-store files still on disk (paired with their contents). -/
structure MergePhaseState where
  mainStore : Store
  tempFiles : List (String × Store)
  deriving DecidableEq

/-- The merge step (`drive_processor.py` lines 304-319), faithfully:
when `thread_db_files` is non-empty the code evaluates
`main_db.merge_databases` — an attribute lookup that must succeed
before the call and the cleanup loop after it can run.  On an
`AttributeError` the exception propagates and the state at that point
is carried out unchanged. -/
def mergePhase (st : MergePhaseState) :
    Except (String × MergePhaseState) MergePhaseState :=
  if st.tempFiles.isEmpty then .ok st
  else
    match getattrDatabaseManager "merge_databases" with
    | .error e => .error (e, st)
    | .ok _ =>
      .ok ⟨(merge_databases st.mainStore (st.tempFiles.map Prod.snd)).1, []⟩

/-! ## Query engine (`DatabaseManager.search_files`, `database.py`
lines 171-211)

The WHERE clause uses SQLite `LIKE`, which is case-insensitive for
ASCII letters only and interprets a percent sign as any sequence and
an underscore as any single character. -/

/-- SQLite `LIKE` character comparison: ASCII-only case folding.
Lean's `Char.toLower` lowers exactly the ASCII uppercase letters,
matching SQLite's default behaviour. -/
def likeChar (p c : Char) : Bool :=
  p.toLower == c.toLower

/-- SQLite `LIKE` pattern matching over character lists (no ESCAPE
clause is used anywhere in the source). -/
def sqlLike : List Char → List Char → Bool
  | [], s => s.isEmpty
  | p :: ps, s =>
    if p = '%' then
      sqlLike ps s ||
        (match s with
         | [] => false
         | _ :: s1 => sqlLike (p :: ps) s1)
    else
      match s with
      | [] => false
      | c :: s1 => (if p = '_' then true else likeChar p c) && sqlLike ps s1
  termination_by p s => (s.length, p.length)

/-- Case-insensitive literal match of `p` against the front of `s`. -/
def matchFront : List Char → List Char → Bool
  | [], _ => true
  | _ :: _, [] => false
  | p :: ps, c :: cs => likeChar p c && matchFront ps cs

/-- `s` contains `p` (case-insensitively) as a contiguous run. -/
def containsCI (p : List Char) : List Char → Bool
  | [] => p.isEmpty
  | c :: cs => matchFront p (c :: cs) || containsCI p cs

/-- One tuple of the SELECT list of `search_files`. -/
structure SearchRow where
  drive_letter : String
  zip_file_name : String
  zip_file_path : String
  file_name : String
  file_size : Nat
  file_path_in_zip : String
  deriving DecidableEq

/-- `FROM zip_files z JOIN file_contents f ON z.uuid = f.zip_uuid`. -/
def joinRows (db : Store) : List SearchRow :=
  db.zip_files.flatMap fun z =>
    (db.file_contents.filter fun f => f.zip_uuid == z.uuid).map fun f =>
      ⟨z.drive_letter, z.zip_file_name, z.zip_file_path,
       f.file_name, f.file_size, f.file_path_in_zip⟩

/-- The ORDER BY relation: descending entry size. -/
def sizeGE (a b : SearchRow) : Prop :=
  b.file_size ≤ a.file_size

instance : DecidableRel sizeGE :=
  fun a b => Nat.decLe b.file_size a.file_size

instance : IsTotal SearchRow sizeGE :=
  ⟨fun a b => Nat.le_total b.file_size a.file_size⟩

instance : IsTrans SearchRow sizeGE :=
  ⟨fun _ _ _ hab hbc => Nat.le_trans hbc hab⟩

/-- Errors `sqlite3` raises during `cursor.execute`. -/
inductive SqlError
  | operationalError (msg : String)
  deriving DecidableEq

/-- `DatabaseManager.search_files` (`database.py` lines 171-211).
The substring branch wraps the pattern as `LIKE '%pattern%'`; the
regex branch uses the `REGEXP` operator, but no REGEXP function is
ever registered on the connection (`sqlite3.create_function` appears
nowhere in `database.py`), so that branch fails at execute time.
Optional size bounds and the extension filter (`LIKE '%.ext'`) follow
the WHERE clause construction; results are ordered by descending
entry size. -/
def search_files (db : Store) (pattern : String) (regex : Bool)
    (min_size max_size : Option Nat) (file_types : List String) :
    Except SqlError (List SearchRow) :=
  if regex then .error (.operationalError "no such function: REGEXP")
  else
    let rows := joinRows db
    let rows := rows.filter fun r =>
      sqlLike ('%' :: pattern.data ++ ['%']) r.file_name.data
    let rows := match min_size with
      | none => rows
      | some m => rows.filter fun r => decide (m ≤ r.file_size)
    let rows := match max_size with
      | none => rows
      | some m => rows.filter fun r => decide (r.file_size ≤ m)
    let rows := if file_types.isEmpty then rows
      else rows.filter fun r =>
        file_types.any fun t => sqlLike ('%' :: '.' :: t.data) r.file_name.data
    .ok (rows.insertionSort sizeGE)

/-! ## Bounded hashing (`VideoArchiveScanner.calculate_file_hash`,
`py_zip_scanner.py` lines 369-392) -/

/-- The chunked read loop: `file_data.read(4096)` until exhausted,
refusing to feed the digest once the running total would pass
`max_size`.  The MD5 digest is modelled by the byte stream fed to it
(the digest is a function of exactly those bytes), so `acc` stands
for the hash state. -/
def hashChunks (maxSize : Nat) (l : List Nat) (bytesRead : Nat)
    (acc : List Nat) : Option (List Nat) :=
  match l with
  | [] => some acc
  | a :: t =>
    let chunk := (a :: t).take 4096
    if bytesRead + chunk.length > maxSize then none
    else hashChunks maxSize ((a :: t).drop 4096) (bytesRead + chunk.length)
      (acc ++ chunk)
  termination_by l.length
  decreasing_by
    simp only [List.length_drop, List.length_cons]
    omega

/-- `calculate_file_hash` (`py_zip_scanner.py` lines 369-392): `None`
when hashing is disabled, when opening the entry fails (any exception
is caught), or when the entry's content passes the
`max_memory_mb * 1024 * 1024` ceiling; otherwise the digest of the
full content. -/
def calculate_file_hash (enable_hashing : Bool) (max_memory_mb : Nat)
    (entry : Except String (List Nat)) : Option (List Nat) :=
  if !enable_hashing then none
  else
    match entry with
    | .error _ => none
    | .ok content => hashChunks (max_memory_mb * 1024 * 1024) content 0 []

/-! ## Basic lemmas about the store -/

lemma any_path_eq_false {db : Store} {p : String} (h : p ∉ db.paths) :
    (db.zip_files.any fun r => r.zip_file_path == p) = false := by
  rw [List.any_eq_false]
  intro r hr
  simp only [beq_iff_eq]
  intro heq
  exact h (heq ▸ List.mem_map_of_mem ZipRow.zip_file_path hr)

lemma any_path_eq_true {db : Store} {p : String} (h : p ∈ db.paths) :
    (db.zip_files.any fun r => r.zip_file_path == p) = true := by
  rw [List.any_eq_true]
  rcases List.mem_map.mp h with ⟨r, hr, heq⟩
  exact ⟨r, hr, by simpa using heq⟩

/-- Successful insert: the store grows by one container row with a
fresh identity and one entry row per scanned file. -/
lemma insert_ok (db : Store) (p : String) (vfs : List VideoFile) (dl : String)
    (hne : vfs ≠ []) (hfresh : p ∉ db.paths) :
    insert_zip_data db p vfs dl = .ok
      (⟨db.tag, db.nextId + 1,
        db.zip_files ++ [⟨dl, basename p, p, (db.tag, db.nextId)⟩],
        db.file_contents ++ vfs.map fun vf =>
          ⟨(db.tag, db.nextId), vf.file_name, vf.file_size, vf.file_path_in_zip⟩⟩,
       some (db.tag, db.nextId)) := by
  have hni : vfs.isEmpty = false := by
    cases vfs with
    | nil => exact absurd rfl hne
    | cons a t => rfl
  simp [insert_zip_data, hni, any_path_eq_false hfresh]

/-- Insert against an already-stored container path raises
`IntegrityError`, whatever the volume of either row. -/
lemma insert_dup (db : Store) (p : String) (vfs : List VideoFile) (dl : String)
    (hne : vfs ≠ []) (hmem : p ∈ db.paths) :
    insert_zip_data db p vfs dl = .error .integrityError := by
  have hni : vfs.isEmpty = false := by
    cases vfs with
    | nil => exact absurd rfl hne
    | cons a t => rfl
  simp [insert_zip_data, hni, any_path_eq_true hmem]

lemma scan_unreadable {iv : String → Bool} {z : ZipFile} {af : Bool}
    (h : z.unreadable) : scan_zip_for_videos iv z af = [] := by
  rcases h with h | h | h <;> simp [scan_zip_for_videos, h]

lemma process_zip_file_empty {iv : String → Bool} {gdl : String → String}
    {af : Bool} (db : Store) {z : ZipFile}
    (h : scan_zip_for_videos iv z af = []) :
    process_zip_file iv gdl af db z = .ok (db, 0, 0) := by
  simp [process_zip_file, h]

/-! ## Claim theorems -/

/-- Claim C7: a container that cannot be parsed or read yields an
empty entry sequence without raising, and the per-volume container
loop behaves on a list containing such a container exactly as on the
list without it: the remaining containers are still processed. -/
theorem unreadable_container_isolated (iv : String → Bool)
    (gdl : String → String) (af : Bool) (z : ZipFile) (h : z.unreadable) :
    scan_zip_for_videos iv z af = [] ∧
    ∀ (l1 l2 : List ZipFile) (db : Store),
      processZips iv gdl af db (l1 ++ z :: l2) =
        processZips iv gdl af db (l1 ++ l2) := by
  have hscan : scan_zip_for_videos iv z af = [] := scan_unreadable h
  refine ⟨hscan, ?_⟩
  intro l1 l2 db
  induction l1 generalizing db with
  | nil =>
    simp only [List.nil_append, processZips, process_zip_file_empty db hscan]
    simp [processZips]
  | cons a t ih =>
    simp only [List.cons_append, processZips]
    cases hpa : process_zip_file iv gdl af db a with
    | error e => rfl
    | ok res => simp [ih]

/-- Claim C7 witness: a concretely corrupt container scans to the
empty list, and processing a volume with it equals processing the
volume without it. -/
theorem unreadable_container_isolated_witness :
    scan_zip_for_videos (fun _ => true) ⟨"/d/bad.zip", .badZipFile⟩ false = [] ∧
    processZips (fun _ => true) (fun _ => "D") false (emptyStore 0)
        ([] ++ ⟨"/d/bad.zip", ZipContents.badZipFile⟩ ::
          [⟨"/d/good.zip", .ok [⟨"a.mp4", 3, false⟩]⟩]) =
      processZips (fun _ => true) (fun _ => "D") false (emptyStore 0)
        ([] ++ [⟨"/d/good.zip", .ok [⟨"a.mp4", 3, false⟩]⟩]) :=
  ⟨(unreadable_container_isolated (fun _ => true) (fun _ => "D") false
      ⟨"/d/bad.zip", .badZipFile⟩ (Or.inl rfl)).1,
   (unreadable_container_isolated (fun _ => true) (fun _ => "D") false
      ⟨"/d/bad.zip", .badZipFile⟩ (Or.inl rfl)).2 []
      [⟨"/d/good.zip", .ok [⟨"a.mp4", 3, false⟩]⟩] (emptyStore 0)⟩

/-- Claim C8: a container whose scan yields zero matching entries is
never recorded: `insert_zip_data` on an empty entry list returns
`None` without touching the store, and `process_zip_file` inserts
nothing for such a container. -/
theorem zero_match_no_container_record (iv : String → Bool)
    (gdl : String → String) (af : Bool) (db : Store) (p dl : String)
    (z : ZipFile) (h : scan_zip_for_videos iv z af = []) :
    insert_zip_data db p [] dl = .ok (db, none) ∧
    process_zip_file iv gdl af db z = .ok (db, 0, 0) :=
  ⟨by simp [insert_zip_data], process_zip_file_empty db h⟩

/-- Claim C8 witness: a container holding only a directory and a
non-matching file scans to zero entries and leaves the store
untouched. -/
theorem zero_match_no_container_record_witness :
    scan_zip_for_videos (fun _ => false) ⟨"/d/x.zip",
        .ok [⟨"sub/", 0, true⟩, ⟨"sub/readme.txt", 9, false⟩]⟩ false = [] ∧
    (insert_zip_data (emptyStore 0) "/d/x.zip" [] "D" = .ok (emptyStore 0, none) ∧
     process_zip_file (fun _ => false) (fun _ => "D") false (emptyStore 0)
        ⟨"/d/x.zip", .ok [⟨"sub/", 0, true⟩, ⟨"sub/readme.txt", 9, false⟩]⟩ =
       .ok (emptyStore 0, 0, 0)) :=
  ⟨by simp [scan_zip_for_videos, is_target_file],
   zero_match_no_container_record (fun _ => false) (fun _ => "D") false
     (emptyStore 0) "/d/x.zip" "D"
     ⟨"/d/x.zip", .ok [⟨"sub/", 0, true⟩, ⟨"sub/readme.txt", 9, false⟩]⟩
     (by simp [scan_zip_for_videos, is_target_file])⟩

/-- Claim C3: whenever at least one worker-store file was created, the
merge step of the threaded run raises `AttributeError` (the
`DatabaseManager` class defines no `merge_databases` method), the
exception propagates with the canonical store unchanged, and the
cleanup loop never runs: the worker-store files stay on disk. -/
theorem merge_call_attribute_error (st : MergePhaseState)
    (h : st.tempFiles ≠ []) :
    mergePhase st = .error
      ("AttributeError: 'DatabaseManager' object has no attribute 'merge_databases'",
       st) := by
  rcases st with ⟨ms, tf⟩
  cases tf with
  | nil => exact absurd rfl h
  | cons a t => rfl

/-- Claim C3 witness: a run that produced one worker-store file. -/
theorem merge_call_attribute_error_witness :
    ((⟨emptyStore 0, [("main.db.thread_0_D.tmp", emptyStore 1)]⟩ :
        MergePhaseState).tempFiles ≠ []) ∧
    mergePhase ⟨emptyStore 0, [("main.db.thread_0_D.tmp", emptyStore 1)]⟩ =
      .error
        ("AttributeError: 'DatabaseManager' object has no attribute 'merge_databases'",
         ⟨emptyStore 0, [("main.db.thread_0_D.tmp", emptyStore 1)]⟩) :=
  ⟨by simp,
   merge_call_attribute_error
     ⟨emptyStore 0, [("main.db.thread_0_D.tmp", emptyStore 1)]⟩ (by simp)⟩

/-- Claim C4 counterexample: the store's UNIQUE constraint is on the
container path alone, so the same path on two different volumes
cannot both be stored: the second insert is rejected. -/
theorem volume_path_pair_counterexample :
    insert_zip_data (emptyStore 0) "/GoogleTakeout/x.zip"
        [⟨"a.mp4", 5, "a.mp4", none⟩] "D1" =
      .ok (⟨0, 1, [⟨"D1", "x.zip", "/GoogleTakeout/x.zip", (0, 0)⟩],
            [⟨(0, 0), "a.mp4", 5, "a.mp4"⟩]⟩, some (0, 0)) ∧
    insert_zip_data
        ⟨0, 1, [⟨"D1", "x.zip", "/GoogleTakeout/x.zip", (0, 0)⟩],
         [⟨(0, 0), "a.mp4", 5, "a.mp4"⟩]⟩
        "/GoogleTakeout/x.zip" [⟨"b.mp4", 7, "b.mp4", none⟩] "D2" =
      .error .integrityError := by
  constructor <;> rfl

/-- Claim C4 amended: the canonical store enforces uniqueness on the
container path alone: a second container record with an already-stored
path is rejected whatever its volume (in particular for the same
volume), while a fresh path is always accepted. -/
theorem path_uniqueness (db : Store) (p : String) (vfs : List VideoFile)
    (dl : String) (hne : vfs ≠ []) :
    (p ∈ db.paths → insert_zip_data db p vfs dl = .error .integrityError) ∧
    (p ∉ db.paths → ∃ db1 u, insert_zip_data db p vfs dl = .ok (db1, some u) ∧
      db1.paths = db.paths ++ [p]) := by
  constructor
  · intro hmem
    exact insert_dup db p vfs dl hne hmem
  · intro hfresh
    refine ⟨_, _, insert_ok db p vfs dl hne hfresh, ?_⟩
    simp [Store.paths]

/-- Claim C4 witness: a duplicate path from another volume is
rejected; a fresh path is accepted. -/
theorem path_uniqueness_witness :
    (("/GoogleTakeout/x.zip" ∈
        (⟨0, 1, [⟨"D1", "x.zip", "/GoogleTakeout/x.zip", (0, 0)⟩],
          [⟨(0, 0), "a.mp4", 5, "a.mp4"⟩]⟩ : Store).paths) ∧
      insert_zip_data
        ⟨0, 1, [⟨"D1", "x.zip", "/GoogleTakeout/x.zip", (0, 0)⟩],
         [⟨(0, 0), "a.mp4", 5, "a.mp4"⟩]⟩
        "/GoogleTakeout/x.zip" [⟨"b.mp4", 7, "b.mp4", none⟩] "D2" =
        .error .integrityError) ∧
    (("/GoogleTakeout/y.zip" ∉ (emptyStore 0).paths) ∧
      ∃ db1 u, insert_zip_data (emptyStore 0) "/GoogleTakeout/y.zip"
          [⟨"b.mp4", 7, "b.mp4", none⟩] "D2" = .ok (db1, some u) ∧
        db1.paths = (emptyStore 0).paths ++ ["/GoogleTakeout/y.zip"]) :=
  ⟨⟨by simp [Store.paths],
    (path_uniqueness _ "/GoogleTakeout/x.zip" [⟨"b.mp4", 7, "b.mp4", none⟩]
        "D2" (by simp)).1 (by simp [Store.paths])⟩,
   ⟨by simp [Store.paths, emptyStore],
    (path_uniqueness (emptyStore 0) "/GoogleTakeout/y.zip"
        [⟨"b.mp4", 7, "b.mp4", none⟩] "D2" (by simp)).2
      (by simp [Store.paths, emptyStore])⟩⟩

/-! ## Bounded hashing lemmas -/

/-- Full characterisation of the chunked read loop: starting inside
the budget, it returns the digest of everything fed so far plus the
whole remaining content when that content fits, and no digest at all
otherwise. -/
lemma hashChunks_spec (maxSize : Nat) : ∀ (l : List Nat) (br : Nat)
    (acc : List Nat), br ≤ maxSize →
    hashChunks maxSize l br acc =
      if br + l.length ≤ maxSize then some (acc ++ l) else none := by
  have key : ∀ (n : Nat) (l : List Nat), l.length ≤ n →
      ∀ (br : Nat) (acc : List Nat), br ≤ maxSize →
      hashChunks maxSize l br acc =
        if br + l.length ≤ maxSize then some (acc ++ l) else none := by
    intro n
    induction n with
    | zero =>
      intro l hl br acc hbr
      have hnil : l = [] := List.length_eq_zero.mp (Nat.le_zero.mp hl)
      subst hnil
      rw [hashChunks]
      simp [hbr]
    | succ n ih =>
      intro l hl br acc hbr
      cases l with
      | nil =>
        rw [hashChunks]
        simp [hbr]
      | cons a t =>
        simp only [hashChunks]
        by_cases hc : br + ((a :: t).take 4096).length > maxSize
        · rw [if_pos hc, if_neg]
          have hle : ((a :: t).take 4096).length ≤ (a :: t).length := by
            rw [List.length_take]
            exact Nat.min_le_right _ _
          omega
        · rw [if_neg hc]
          have hdl : ((a :: t).drop 4096).length ≤ n := by
            simp only [List.length_drop, List.length_cons]
            simp only [List.length_cons] at hl
            omega
          rw [ih ((a :: t).drop 4096) hdl _ _ (by omega)]
          have hsum : ((a :: t).take 4096).length + ((a :: t).drop 4096).length =
              (a :: t).length := by
            simp only [List.length_take, List.length_drop, List.length_cons]
            omega
          have hcond : (br + ((a :: t).take 4096).length +
              ((a :: t).drop 4096).length ≤ maxSize) ↔
              (br + (a :: t).length ≤ maxSize) := by omega
          rw [if_congr hcond rfl rfl]
          rw [List.append_assoc, List.take_append_drop]
  intro l br acc hbr
  exact key l.length l (Nat.le_refl _) br acc hbr

/-- Claim C9: with hashing enabled, an entry whose content exceeds the
`max_memory_mb` ceiling yields no hash at all (never a partial-prefix
hash), and an entry at or below the ceiling yields the digest of its
full content. -/
theorem hashing_bounded_by_ceiling (max_memory_mb : Nat)
    (content : List Nat) :
    (content.length ≤ max_memory_mb * 1024 * 1024 →
      calculate_file_hash true max_memory_mb (.ok content) = some content) ∧
    (max_memory_mb * 1024 * 1024 < content.length →
      calculate_file_hash true max_memory_mb (.ok content) = none) := by
  have h := hashChunks_spec (max_memory_mb * 1024 * 1024) content 0 []
    (Nat.zero_le _)
  constructor
  · intro hle
    have hc : 0 + content.length ≤ max_memory_mb * 1024 * 1024 := by omega
    simp only [calculate_file_hash, Bool.not_true]
    rw [h, if_pos hc]
    simp
  · intro hgt
    have hc : ¬(0 + content.length ≤ max_memory_mb * 1024 * 1024) := by omega
    simp only [calculate_file_hash, Bool.not_true]
    rw [h, if_neg hc]
    simp

/-- Claim C9 witness: with a 1 MB ceiling a one-byte entry hashes in
full; with a 0-byte ceiling the same entry yields no hash. -/
theorem hashing_bounded_by_ceiling_witness :
    (([1] : List Nat).length ≤ 1 * 1024 * 1024 ∧
      calculate_file_hash true 1 (.ok [1]) = some [1]) ∧
    (0 * 1024 * 1024 < ([1] : List Nat).length ∧
      calculate_file_hash true 0 (.ok [1]) = none) :=
  ⟨⟨by decide, (hashing_bounded_by_ceiling 1 [1]).1 (by decide)⟩,
   ⟨by decide, (hashing_bounded_by_ceiling 0 [1]).2 (by decide)⟩⟩

/-! ## Merge conflict lemmas -/

lemma any_pair_eq_true {c : Store} {q : String × String} (h : q ∈ c.pairs) :
    (c.pairs.any fun p => p == q) = true := by
  rw [List.any_eq_true]
  exact ⟨q, h, by simp⟩

lemma any_pair_eq_false {c : Store} {q : String × String} (h : q ∉ c.pairs) :
    (c.pairs.any fun p => p == q) = false := by
  rw [List.any_eq_false]
  intro p hp
  simp only [beq_iff_eq]
  intro heq
  exact h (heq ▸ hp)

lemma mergeStep_conflict (w c : Store) (s : MergeSummary) (z : ZipRow)
    (h : pairKey z ∈ c.pairs) :
    mergeStep w (c, s) z =
      (c, ⟨s.containersMerged, s.entriesMerged, s.conflicts ++ [pairKey z]⟩) := by
  simp only [mergeStep, pairKey] at *
  rw [if_pos (any_pair_eq_true h)]

lemma mergeStep_fresh (w c : Store) (s : MergeSummary) (z : ZipRow)
    (h : pairKey z ∉ c.pairs) :
    mergeStep w (c, s) z =
      (⟨c.tag, c.nextId, c.zip_files ++ [z],
        c.file_contents ++ w.file_contents.filter fun f => f.zip_uuid == z.uuid⟩,
       ⟨s.containersMerged + 1,
        s.entriesMerged +
          (w.file_contents.filter fun f => f.zip_uuid == z.uuid).length,
        s.conflicts⟩) := by
  simp only [mergeStep, pairKey] at *
  rw [if_neg (by rw [any_pair_eq_false h]; exact Bool.false_ne_true)]

/-- Every merge step leaves the canonical key set and the conflict
list extended by (possibly empty) suffixes. -/
lemma mergeStep_extend (w c : Store) (s : MergeSummary) (z : ZipRow) :
    ∃ pr cf : List (String × String),
      (mergeStep w (c, s) z).1.pairs = c.pairs ++ pr ∧
      (mergeStep w (c, s) z).2.conflicts = s.conflicts ++ cf := by
  by_cases h : pairKey z ∈ c.pairs
  · exact ⟨[], [pairKey z], by simp [mergeStep_conflict w c s z h],
      by simp [mergeStep_conflict w c s z h]⟩
  · refine ⟨[pairKey z], [], ?_, by simp [mergeStep_fresh w c s z h]⟩
    simp [mergeStep_fresh w c s z h, Store.pairs]

/-- Folding merge steps extends key set and conflict list by suffixes. -/
lemma mergeFold_extend (w : Store) : ∀ (zs : List ZipRow) (c : Store)
    (s : MergeSummary), ∃ pr cf : List (String × String),
    (zs.foldl (mergeStep w) (c, s)).1.pairs = c.pairs ++ pr ∧
    (zs.foldl (mergeStep w) (c, s)).2.conflicts = s.conflicts ++ cf := by
  intro zs
  induction zs with
  | nil => intro c s; exact ⟨[], [], by simp, by simp⟩
  | cons z t ih =>
    intro c s
    rw [List.foldl_cons]
    obtain ⟨pr1, cf1, hp1, hc1⟩ := mergeStep_extend w c s z
    obtain ⟨c1, s1, hcs⟩ : ∃ c1 s1, mergeStep w (c, s) z = (c1, s1) :=
      ⟨_, _, rfl⟩
    rw [hcs] at hp1 hc1 ⊢
    obtain ⟨pr2, cf2, hp2, hc2⟩ := ih c1 s1
    exact ⟨pr1 ++ pr2, cf1 ++ cf2, by rw [hp2, hp1, List.append_assoc],
      by rw [hc2, hc1, List.append_assoc]⟩

/-- Merging a worker store whose container keys are all already
present rejects every container: the canonical store is unchanged and
every key is reported as a conflict. -/
lemma mergeFold_all_conflict (w : Store) : ∀ (zs : List ZipRow) (c : Store)
    (s : MergeSummary), (∀ z ∈ zs, pairKey z ∈ c.pairs) →
    zs.foldl (mergeStep w) (c, s) =
      (c, ⟨s.containersMerged, s.entriesMerged, s.conflicts ++ zs.map pairKey⟩) := by
  intro zs
  induction zs with
  | nil => intro c s _; simp
  | cons z t ih =>
    intro c s h
    rw [List.foldl_cons, mergeStep_conflict w c s z (h z (by simp))]
    rw [ih c _ (fun z1 hz1 => h z1 (by simp [hz1]))]
    simp

/-- After a conflict-free merge, every container key of the worker
store is present in the resulting canonical store. -/
lemma mergeFold_no_conflict_pairs (w : Store) : ∀ (zs : List ZipRow)
    (c : Store) (s : MergeSummary),
    (zs.foldl (mergeStep w) (c, s)).2.conflicts = s.conflicts →
    ∀ z ∈ zs, pairKey z ∈ (zs.foldl (mergeStep w) (c, s)).1.pairs := by
  intro zs
  induction zs with
  | nil => simp
  | cons z0 t ih =>
    intro c s hconf z hz
    rw [List.foldl_cons] at hconf ⊢
    by_cases h0 : pairKey z0 ∈ c.pairs
    · exfalso
      rw [mergeStep_conflict w c s z0 h0] at hconf
      obtain ⟨pr, cf, _, hc⟩ := mergeFold_extend w t c
        ⟨s.containersMerged, s.entriesMerged, s.conflicts ++ [pairKey z0]⟩
      rw [hc] at hconf
      have hlen := congrArg List.length hconf
      simp at hlen
    · rw [mergeStep_fresh w c s z0 h0] at hconf ⊢
      rcases List.mem_cons.mp hz with rfl | hzt
      · obtain ⟨pr, cf, hp, _⟩ := mergeFold_extend w t
          (⟨c.tag, c.nextId, c.zip_files ++ [z],
            c.file_contents ++ w.file_contents.filter fun f => f.zip_uuid == z.uuid⟩)
          (⟨s.containersMerged + 1,
            s.entriesMerged +
              (w.file_contents.filter fun f => f.zip_uuid == z.uuid).length,
            s.conflicts⟩)
        rw [hp]
        have : pairKey z ∈ (Store.mk c.tag c.nextId (c.zip_files ++ [z])
            (c.file_contents ++ w.file_contents.filter fun f =>
              f.zip_uuid == z.uuid)).pairs := by
          simp [Store.pairs]
        exact List.mem_append_left pr this
      · exact ih _ _ hconf z hzt

/-- Claim C2 counterexample: a worker store holding no container
records (a drive that yielded no matches still creates its
worker-store file) merges with an empty summary, and re-merging it
reports no conflict at all — the claim's universal form fails on it. -/
theorem remerge_empty_no_conflict :
    mergeWorkerStore (emptyStore 0) (emptyStore 1) =
      (emptyStore 0, ⟨0, 0, []⟩) ∧
    (mergeWorkerStore
        (mergeWorkerStore (emptyStore 0) (emptyStore 1)).1
        (emptyStore 1)).2.conflicts = [] := by
  constructor <;> rfl

/-- Claim C2 amended: for every worker store holding at least one
container record that has been fully merged (no rejected unit) into
the canonical store, merging it a second time rejects every one of
its containers as a `ConflictOnMerge` unit and returns the canonical
store unchanged — counts included; silent duplicate insertion never
occurs. -/
theorem remerge_rejected_as_conflict (c w c1 : Store) (s1 : MergeSummary)
    (hmerged : mergeWorkerStore c w = (c1, s1)) (hclean : s1.conflicts = [])
    (hne : w.zip_files ≠ []) :
    mergeWorkerStore c1 w = (c1, ⟨0, 0, w.zip_files.map pairKey⟩) ∧
    (mergeWorkerStore c1 w).2.conflicts ≠ [] := by
  have hfold : w.zip_files.foldl (mergeStep w) (c, ⟨0, 0, []⟩) = (c1, s1) :=
    hmerged
  have hpairs : ∀ z ∈ w.zip_files, pairKey z ∈ c1.pairs := by
    intro z hz
    have hc : (w.zip_files.foldl (mergeStep w) (c, ⟨0, 0, []⟩)).2.conflicts =
        ([] : List (String × String)) := by
      rw [hfold]
      exact hclean
    have := mergeFold_no_conflict_pairs w w.zip_files c ⟨0, 0, []⟩ hc z hz
    rw [hfold] at this
    exact this
  have hres : mergeWorkerStore c1 w =
      (c1, ⟨0, 0, w.zip_files.map pairKey⟩) := by
    have := mergeFold_all_conflict w w.zip_files c1 ⟨0, 0, []⟩ hpairs
    simpa [mergeWorkerStore] using this
  refine ⟨hres, ?_⟩
  rw [hres]
  simp only [ne_eq, List.map_eq_nil_iff]
  exact hne

/-- Claim C2 witness: a one-container worker store merged into an
empty canonical store; re-merging it rejects the container and leaves
the canonical store unchanged. -/
theorem remerge_rejected_as_conflict_witness :
    (mergeWorkerStore (emptyStore 0)
        ⟨1, 1, [⟨"D", "x.zip", "/d/x.zip", (1, 0)⟩],
         [⟨(1, 0), "a.mp4", 5, "a.mp4"⟩]⟩ =
      (⟨0, 0, [⟨"D", "x.zip", "/d/x.zip", (1, 0)⟩],
        [⟨(1, 0), "a.mp4", 5, "a.mp4"⟩]⟩, ⟨1, 1, []⟩) ∧
     (⟨1, 1, []⟩ : MergeSummary).conflicts = [] ∧
     (⟨1, 1, [⟨"D", "x.zip", "/d/x.zip", (1, 0)⟩],
       [⟨(1, 0), "a.mp4", 5, "a.mp4"⟩]⟩ : Store).zip_files ≠ []) ∧
    (mergeWorkerStore
        ⟨0, 0, [⟨"D", "x.zip", "/d/x.zip", (1, 0)⟩],
         [⟨(1, 0), "a.mp4", 5, "a.mp4"⟩]⟩
        ⟨1, 1, [⟨"D", "x.zip", "/d/x.zip", (1, 0)⟩],
         [⟨(1, 0), "a.mp4", 5, "a.mp4"⟩]⟩ =
      (⟨0, 0, [⟨"D", "x.zip", "/d/x.zip", (1, 0)⟩],
        [⟨(1, 0), "a.mp4", 5, "a.mp4"⟩]⟩,
       ⟨0, 0, [("D", "/d/x.zip")]⟩) ∧
     (mergeWorkerStore
        ⟨0, 0, [⟨"D", "x.zip", "/d/x.zip", (1, 0)⟩],
         [⟨(1, 0), "a.mp4", 5, "a.mp4"⟩]⟩
        ⟨1, 1, [⟨"D", "x.zip", "/d/x.zip", (1, 0)⟩],
         [⟨(1, 0), "a.mp4", 5, "a.mp4"⟩]⟩).2.conflicts ≠ []) :=
  ⟨⟨by rfl, rfl, by simp⟩,
   remerge_rejected_as_conflict (emptyStore 0)
     ⟨1, 1, [⟨"D", "x.zip", "/d/x.zip", (1, 0)⟩],
      [⟨(1, 0), "a.mp4", 5, "a.mp4"⟩]⟩
     ⟨0, 0, [⟨"D", "x.zip", "/d/x.zip", (1, 0)⟩],
      [⟨(1, 0), "a.mp4", 5, "a.mp4"⟩]⟩
     ⟨1, 1, []⟩ (by rfl) rfl (by simp)⟩

/-! ## Failure isolation in the threaded run -/

lemma threadedResultsFrom_get (iv : String → Bool) (gdl : String → String)
    (af : Bool) : ∀ (vols : List Volume) (k i : Nat),
    (threadedResultsFrom iv gdl af k vols)[i]? =
      (vols[i]?).map fun v =>
        (process_drive iv gdl af (emptyStore (k + i + 1)) v).2 := by
  intro vols
  induction vols with
  | nil => intro k i; simp [threadedResultsFrom]
  | cons v vs ih =>
    intro k i
    cases i with
    | zero => simp [threadedResultsFrom]
    | succ n =>
      simp only [threadedResultsFrom, List.getElem?_cons_succ, ih (k + 1) n]
      have harith : k + 1 + n + 1 = k + (n + 1) + 1 := by omega
      rw [harith]

/-- Claim C10: a volume whose processing raises an unhandled fault is
recorded as a per-volume failure result carrying the volume identifier
and the error message, the result is not successful, and every
sibling volume's recorded result is exactly its own full
`process_drive` outcome — nothing is cancelled. -/
theorem volume_failure_isolated (iv : String → Bool)
    (gdl : String → String) (af : Bool) (vols : List Volume) (i : Nat)
    (msg : String) (hi : i < vols.length)
    (h : (vols.get ⟨i, hi⟩).find = .error msg) :
    (threadedResults iv gdl af vols)[i]? =
      some ⟨(vols.get ⟨i, hi⟩).drive, 0, 0, some msg⟩ ∧
    DriveProcessingResult.success
      ⟨(vols.get ⟨i, hi⟩).drive, 0, 0, some msg⟩ = false ∧
    ∀ (j : Nat) (hj : j < vols.length),
      (threadedResults iv gdl af vols)[j]? =
        some (process_drive iv gdl af (emptyStore (j + 1))
          (vols.get ⟨j, hj⟩)).2 := by
  have hget : ∀ (j : Nat) (hj : j < vols.length),
      (threadedResults iv gdl af vols)[j]? =
        some (process_drive iv gdl af (emptyStore (j + 1))
          (vols.get ⟨j, hj⟩)).2 := by
    intro j hj
    rw [threadedResults, threadedResultsFrom_get iv gdl af vols 0 j]
    rw [List.getElem?_eq_getElem hj]
    simp [List.get_eq_getElem]
  refine ⟨?_, rfl, hget⟩
  rw [hget i hi]
  simp only [List.get_eq_getElem] at h ⊢
  simp [process_drive, h]

/-- Claim C10 witness: of two volumes, the second one's enumeration
fails; it is recorded as a failure and the first volume's result is
its normal outcome. -/
theorem volume_failure_isolated_witness :
    (threadedResults (fun _ => true) (fun _ => "D") false
        [⟨"/mnt/c", .ok []⟩, ⟨"/mnt/d", .error "VolumeInaccessible"⟩])[1]? =
      some ⟨"/mnt/d", 0, 0, some "VolumeInaccessible"⟩ ∧
    DriveProcessingResult.success ⟨"/mnt/d", 0, 0, some "VolumeInaccessible"⟩ =
      false ∧
    ∀ (j : Nat) (hj : j < ([⟨"/mnt/c", .ok []⟩,
        ⟨"/mnt/d", .error "VolumeInaccessible"⟩] : List Volume).length),
      (threadedResults (fun _ => true) (fun _ => "D") false
        [⟨"/mnt/c", .ok []⟩, ⟨"/mnt/d", .error "VolumeInaccessible"⟩])[j]? =
        some (process_drive (fun _ => true) (fun _ => "D") false
          (emptyStore (j + 1))
          (([⟨"/mnt/c", .ok []⟩, ⟨"/mnt/d", .error "VolumeInaccessible"⟩] :
            List Volume).get ⟨j, hj⟩)).2 := by
  have h := volume_failure_isolated (fun _ => true) (fun _ => "D") false
    [⟨"/mnt/c", .ok []⟩, ⟨"/mnt/d", .error "VolumeInaccessible"⟩] 1
    "VolumeInaccessible" (by simp) rfl
  exact h

/-! ## LIKE-pattern lemmas -/

/-- A pattern free of the LIKE wildcard characters. -/
def noWildcard (p : List Char) : Bool :=
  p.all fun c => !(c == '%' || c == '_')

lemma sqlLike_percent_all : ∀ s : List Char, sqlLike ['%'] s = true := by
  intro s
  induction s with
  | nil => simp [sqlLike]
  | cons c cs ih => simp [sqlLike, ih]

lemma sqlLike_percent_cons (q : List Char) (c : Char) (cs : List Char) :
    sqlLike ('%' :: q) (c :: cs) =
      (sqlLike q (c :: cs) || sqlLike ('%' :: q) cs) := by
  simp [sqlLike]

lemma sqlLike_percent_nil (q : List Char) :
    sqlLike ('%' :: q) [] = sqlLike q [] := by
  simp [sqlLike]

lemma sqlLike_percent_iff (q : List Char) : ∀ s : List Char,
    sqlLike ('%' :: q) s = true ↔ ∃ n, sqlLike q (s.drop n) = true := by
  intro s
  induction s with
  | nil =>
    rw [sqlLike_percent_nil]
    exact ⟨fun h => ⟨0, by simpa using h⟩,
      fun ⟨n, hn⟩ => by simpa using hn⟩
  | cons c cs ih =>
    rw [sqlLike_percent_cons]
    constructor
    · intro hq
      rcases Bool.or_eq_true_iff.mp hq with h | h
      · exact ⟨0, by simpa using h⟩
      · rcases ih.mp h with ⟨n, hn⟩
        exact ⟨n + 1, by simpa using hn⟩
    · rintro ⟨n, hn⟩
      cases n with
      | zero =>
        simp only [List.drop_zero] at hn
        simp [hn]
      | succ n =>
        have h2 : sqlLike ('%' :: q) cs = true :=
          ih.mpr ⟨n, by simpa using hn⟩
        simp [h2]

lemma matchFront_nil_right (p : List Char) : matchFront p [] = p.isEmpty := by
  cases p <;> simp [matchFront]

lemma sqlLike_lit_percent : ∀ p : List Char, noWildcard p = true →
    ∀ t : List Char, sqlLike (p ++ ['%']) t = matchFront p t := by
  intro p
  induction p with
  | nil =>
    intro _ t
    simp only [List.nil_append, matchFront]
    exact sqlLike_percent_all t
  | cons a ps ih =>
    intro hw t
    have ha : (a == '%' || a == '_') = false ∧ noWildcard ps = true := by
      simp only [noWildcard, List.all_cons, Bool.and_eq_true, Bool.not_eq_true',
        noWildcard] at hw ⊢
      exact hw
    have ha1 : ¬(a = '%') := by
      intro hEq
      rw [hEq] at ha
      simp at ha
    have ha2 : ¬(a = '_') := by
      intro hEq
      rw [hEq] at ha
      simp at ha
    cases t with
    | nil => simp [sqlLike, matchFront, ha1]
    | cons c cs =>
      simp only [List.cons_append, sqlLike, if_neg ha1, if_neg ha2,
        matchFront, ih ha.2 cs]

lemma containsCI_iff (p : List Char) : ∀ s : List Char,
    containsCI p s = true ↔ ∃ n, matchFront p (s.drop n) = true := by
  intro s
  induction s with
  | nil =>
    simp only [containsCI, List.drop_nil]
    exact ⟨fun h => ⟨0, by rw [matchFront_nil_right]; exact h⟩,
      fun ⟨n, hn⟩ => by rw [matchFront_nil_right] at hn; exact hn⟩
  | cons c cs ih =>
    simp only [containsCI]
    constructor
    · intro hq
      rcases Bool.or_eq_true_iff.mp hq with h | h
      · exact ⟨0, by simpa using h⟩
      · rcases ih.mp h with ⟨n, hn⟩
        exact ⟨n + 1, by simpa using hn⟩
    · rintro ⟨n, hn⟩
      cases n with
      | zero =>
        simp only [List.drop_zero] at hn
        simp [hn]
      | succ n =>
        have h2 : containsCI p cs = true := ih.mpr ⟨n, by simpa using hn⟩
        simp [h2]

/-- On wildcard-free patterns, the `LIKE '%p%'` test is exactly
case-insensitive substring containment. -/
lemma sqlLike_eq_containsCI (p : List Char) (hw : noWildcard p = true)
    (s : List Char) : sqlLike ('%' :: (p ++ ['%'])) s = containsCI p s := by
  have hiff : sqlLike ('%' :: (p ++ ['%'])) s = true ↔ containsCI p s = true := by
    rw [sqlLike_percent_iff, containsCI_iff]
    constructor
    · rintro ⟨n, hn⟩
      exact ⟨n, by rw [← sqlLike_lit_percent p hw]; exact hn⟩
    · rintro ⟨n, hn⟩
      exact ⟨n, by rw [sqlLike_lit_percent p hw]; exact hn⟩
  cases hb : sqlLike ('%' :: (p ++ ['%'])) s with
  | false =>
    cases hb2 : containsCI p s with
    | false => rfl
    | true => exact absurd (hiff.mpr hb2) (by rw [hb]; exact Bool.false_ne_true)
  | true => exact (hiff.mp hb).symm

/-- The substring branch of `search_files` with no optional filters. -/
lemma search_files_substring (db : Store) (pattern : String) :
    search_files db pattern false none none [] =
      .ok (((joinRows db).filter fun r =>
        sqlLike ('%' :: pattern.data ++ ['%']) r.file_name.data).insertionSort
          sizeGE) := by
  simp [search_files]

/-- Claim C5 counterexample: on a store holding one entry, the empty
pattern becomes `LIKE '%%'`, which matches every row: the search
returns that entry rather than zero results. -/
theorem empty_search_counterexample :
    search_files
        ⟨0, 1, [⟨"D1", "x.zip", "/d/x.zip", (0, 0)⟩],
         [⟨(0, 0), "clip.mp4", 9, "clip.mp4"⟩]⟩ "" false none none [] =
      .ok [⟨"D1", "x.zip", "/d/x.zip", "clip.mp4", 9, "clip.mp4"⟩] := by
  rw [search_files_substring]
  have hjoin : joinRows
      ⟨0, 1, [⟨"D1", "x.zip", "/d/x.zip", (0, 0)⟩],
       [⟨(0, 0), "clip.mp4", 9, "clip.mp4"⟩]⟩ =
      [⟨"D1", "x.zip", "/d/x.zip", "clip.mp4", 9, "clip.mp4"⟩] := rfl
  rw [hjoin]
  have hpat : ('%' :: ("" : String).data ++ ['%']) = ['%', '%'] := rfl
  rw [hpat]
  have hlike : sqlLike ['%', '%'] ("clip.mp4" : String).data = true := by
    rw [show (['%', '%'] : List Char) = '%' :: ['%'] from rfl]
    exact (sqlLike_percent_iff ['%'] _).mpr ⟨0, sqlLike_percent_all _⟩
  simp [List.filter, hlike, List.insertionSort]

/-- Claim C5 amended: the empty pattern in substring mode is treated
as match-all: `search("")` returns every stored entry (ordered by
descending size), never zero results on a non-empty store. -/
theorem empty_pattern_matches_all (db : Store) :
    ∃ rows, search_files db "" false none none [] = .ok rows ∧
      rows.Perm (joinRows db) ∧ List.Sorted sizeGE rows := by
  refine ⟨_, search_files_substring db "", ?_, ?_⟩
  · have hfilter : ((joinRows db).filter fun r =>
        sqlLike ('%' :: ("" : String).data ++ ['%']) r.file_name.data) =
        joinRows db := by
      apply List.filter_eq_self.mpr
      intro r _
      have hpat : ('%' :: ("" : String).data ++ ['%']) = ['%', '%'] := rfl
      rw [hpat, show (['%', '%'] : List Char) = '%' :: ['%'] from rfl]
      exact (sqlLike_percent_iff ['%'] _).mpr ⟨0, sqlLike_percent_all _⟩
    rw [hfilter]
    exact List.perm_insertionSort sizeGE _
  · exact List.sorted_insertionSort sizeGE _

/-- Claim C6 counterexample: the pattern is passed to LIKE unescaped,
so its underscore matches any character: searching "video_000" returns
an entry named "videoX000" even though that name does not contain the
substring "video_000". -/
theorem substring_wildcard_counterexample :
    search_files
        ⟨0, 1, [⟨"D1", "x.zip", "/d/x.zip", (0, 0)⟩],
         [⟨(0, 0), "videoX000", 9, "videoX000"⟩]⟩ "video_000" false
        none none [] =
      .ok [⟨"D1", "x.zip", "/d/x.zip", "videoX000", 9, "videoX000"⟩] ∧
    containsCI ("video_000" : String).data ("videoX000" : String).data =
      false := by
  constructor
  · rw [search_files_substring]
    have hjoin : joinRows
        ⟨0, 1, [⟨"D1", "x.zip", "/d/x.zip", (0, 0)⟩],
         [⟨(0, 0), "videoX000", 9, "videoX000"⟩]⟩ =
        [⟨"D1", "x.zip", "/d/x.zip", "videoX000", 9, "videoX000"⟩] := rfl
    rw [hjoin]
    have hlike : sqlLike ['%', 'v', 'i', 'd', 'e', 'o', '_', '0', '0', '0', '%']
        ['v', 'i', 'd', 'e', 'o', 'X', '0', '0', '0'] = true := by
      simp only [sqlLike, likeChar]
      decide
    simp [List.filter, hlike, List.insertionSort]
  · simp only [show ("video_000" : String).data =
        ['v', 'i', 'd', 'e', 'o', '_', '0', '0', '0'] from rfl,
      show ("videoX000" : String).data =
        ['v', 'i', 'd', 'e', 'o', 'X', '0', '0', '0'] from rfl]
    decide

/-- Claim C6 amended: for every non-empty substring pattern free of
the LIKE wildcard characters (percent and underscore), the search
returns exactly the stored entries whose name contains the pattern
case-insensitively (ASCII folding), ordered by descending entry
size. -/
theorem substring_search_contains (db : Store) (pattern : String)
    (_hne : pattern ≠ "") (hw : noWildcard pattern.data = true) :
    ∃ rows, search_files db pattern false none none [] = .ok rows ∧
      rows.Perm ((joinRows db).filter fun r =>
        containsCI pattern.data r.file_name.data) ∧
      List.Sorted sizeGE rows := by
  refine ⟨_, search_files_substring db pattern, ?_, ?_⟩
  · have hfe : ((joinRows db).filter fun r =>
        sqlLike ('%' :: pattern.data ++ ['%']) r.file_name.data) =
        ((joinRows db).filter fun r =>
          containsCI pattern.data r.file_name.data) := by
      apply List.filter_congr
      intro r _
      exact sqlLike_eq_containsCI pattern.data hw r.file_name.data
    rw [hfe]
    exact List.perm_insertionSort sizeGE _
  · exact List.sorted_insertionSort sizeGE _

/-- Claim C6 witness: searching "clip" on a one-entry store. -/
theorem substring_search_contains_witness :
    (("clip" : String) ≠ "" ∧ noWildcard ("clip" : String).data = true) ∧
    (∃ rows, search_files
        ⟨0, 1, [⟨"D1", "x.zip", "/d/x.zip", (0, 0)⟩],
         [⟨(0, 0), "clip.mp4", 9, "clip.mp4"⟩]⟩ "clip" false none none [] =
        .ok rows ∧
      rows.Perm ((joinRows
        ⟨0, 1, [⟨"D1", "x.zip", "/d/x.zip", (0, 0)⟩],
         [⟨(0, 0), "clip.mp4", 9, "clip.mp4"⟩]⟩).filter fun r =>
          containsCI ("clip" : String).data r.file_name.data) ∧
      List.Sorted sizeGE rows) :=
  ⟨⟨by decide, by decide⟩,
   substring_search_contains
     ⟨0, 1, [⟨"D1", "x.zip", "/d/x.zip", (0, 0)⟩],
      [⟨(0, 0), "clip.mp4", 9, "clip.mp4"⟩]⟩ "clip" (by decide) (by decide)⟩

/-! ## Mode equivalence: aggregate content measures

Per-volume aggregates of the filesystem content, used to relate the
two processing modes. -/

/-- All container paths a volume's enumeration yields. -/
def volPaths (v : Volume) : List String :=
  match v.find with
  | .error _ => []
  | .ok zips => zips.map ZipFile.path

/-- All container paths of the whole filesystem content. -/
def contentPaths (vols : List Volume) : List String :=
  vols.flatMap volPaths

/-- Paths of the volume's containers holding at least one match. -/
def volMatchedPaths (iv : String → Bool) (af : Bool) (v : Volume) :
    List String :=
  match v.find with
  | .error _ => []
  | .ok zips =>
    (zips.filter fun z => !(scan_zip_for_videos iv z af).isEmpty).map
      ZipFile.path

/-- Number of the volume's containers holding at least one match. -/
def volZipCountT (iv : String → Bool) (af : Bool) (v : Volume) : Nat :=
  match v.find with
  | .error _ => 0
  | .ok zips =>
    (zips.filter fun z => !(scan_zip_for_videos iv z af).isEmpty).length

/-- Number of matching entries across the volume's containers. -/
def volFileCountT (iv : String → Bool) (af : Bool) (v : Volume) : Nat :=
  match v.find with
  | .error _ => 0
  | .ok zips => (zips.map fun z => (scan_zip_for_videos iv z af).length).sum

/-- Byte sum over matching entries across the volume's containers. -/
def volByteSumT (iv : String → Bool) (af : Bool) (v : Volume) : Nat :=
  match v.find with
  | .error _ => 0
  | .ok zips =>
    (zips.map fun z =>
      ((scan_zip_for_videos iv z af).map VideoFile.file_size).sum).sum

/-- Store sanity: container identities are distinct, every entry row
references a stored container, and identities stay below the
freshness counter of the store's own namespace. -/
def Store.wellFormed (db : Store) : Prop :=
  (db.zip_files.map ZipRow.uuid).Nodup ∧
  (∀ f ∈ db.file_contents, f.zip_uuid ∈ db.zip_files.map ZipRow.uuid) ∧
  (∀ z ∈ db.zip_files, z.uuid.1 = db.tag ∧ z.uuid.2 < db.nextId)

lemma emptyStore_wellFormed (t : Nat) : (emptyStore t).wellFormed := by
  refine ⟨?_, ?_, ?_⟩ <;> simp [emptyStore, Store.wellFormed]

/-- The store produced by a successful insert inside
`process_zip_file`. -/
def insertedStore (iv : String → Bool) (gdl : String → String) (af : Bool)
    (db : Store) (z : ZipFile) : Store :=
  ⟨db.tag, db.nextId + 1,
   db.zip_files ++ [⟨gdl z.path, basename z.path, z.path, (db.tag, db.nextId)⟩],
   db.file_contents ++ (scan_zip_for_videos iv z af).map fun vf =>
     ⟨(db.tag, db.nextId), vf.file_name, vf.file_size, vf.file_path_in_zip⟩⟩

lemma insertedStore_zipCount (iv : String → Bool) (gdl : String → String)
    (af : Bool) (db : Store) (z : ZipFile) :
    (insertedStore iv gdl af db z).zipCount = db.zipCount + 1 := by
  simp [insertedStore, Store.zipCount]

lemma insertedStore_fileCount (iv : String → Bool) (gdl : String → String)
    (af : Bool) (db : Store) (z : ZipFile) :
    (insertedStore iv gdl af db z).fileCount =
      db.fileCount + (scan_zip_for_videos iv z af).length := by
  simp [insertedStore, Store.fileCount]

lemma insertedStore_byteSum (iv : String → Bool) (gdl : String → String)
    (af : Bool) (db : Store) (z : ZipFile) :
    (insertedStore iv gdl af db z).byteSum =
      db.byteSum + ((scan_zip_for_videos iv z af).map VideoFile.file_size).sum := by
  simp only [insertedStore, Store.byteSum, List.map_append, List.sum_append,
    List.map_map]
  rfl

lemma insertedStore_paths (iv : String → Bool) (gdl : String → String)
    (af : Bool) (db : Store) (z : ZipFile) :
    (insertedStore iv gdl af db z).paths = db.paths ++ [z.path] := by
  simp [insertedStore, Store.paths]

lemma insertedStore_tag (iv : String → Bool) (gdl : String → String)
    (af : Bool) (db : Store) (z : ZipFile) :
    (insertedStore iv gdl af db z).tag = db.tag := rfl

lemma insertedStore_wellFormed (iv : String → Bool) (gdl : String → String)
    (af : Bool) (db : Store) (z : ZipFile) (hwf : db.wellFormed) :
    (insertedStore iv gdl af db z).wellFormed := by
  obtain ⟨h1, h2, h3⟩ := hwf
  refine ⟨?_, ?_, ?_⟩
  · simp only [insertedStore, List.map_append, List.map_cons, List.map_nil]
    rw [List.nodup_append]
    refine ⟨h1, by simp, ?_⟩
    intro u hu
    simp only [List.mem_singleton]
    intro hu2
    rcases List.mem_map.mp hu with ⟨zr, hzr, hzu⟩
    have := (h3 zr hzr).2
    rw [hzu, hu2] at this
    simp at this
  · intro f hf
    simp only [insertedStore, List.mem_append] at hf
    simp only [insertedStore, List.map_append, List.map_cons, List.map_nil,
      List.mem_append]
    rcases hf with hf | hf
    · exact Or.inl (h2 f hf)
    · rcases List.mem_map.mp hf with ⟨vf, _, hvf⟩
      right
      rw [← hvf]
      simp
  · intro zr hzr
    simp only [insertedStore, List.mem_append, List.mem_singleton] at hzr
    simp only [insertedStore]
    rcases hzr with hzr | hzr
    · have := h3 zr hzr
      exact ⟨this.1, by omega⟩
    · rw [hzr]
      refine ⟨rfl, ?_⟩
      simp

/-! ## Double-counting entry rows through their owning container -/

lemma sum_map_add {α : Type} (l : List α) (f g : α → Nat) :
    (l.map fun x => f x + g x).sum = (l.map f).sum + (l.map g).sum := by
  induction l with
  | nil => simp
  | cons a t ih => simp [ih]; omega

lemma sum_map_ite_unique (us : List (Nat × Nat)) (a : Nat × Nat) (k : Nat)
    (hnd : us.Nodup) (hmem : a ∈ us) :
    (us.map fun u => if a == u then k else 0).sum = k := by
  induction us with
  | nil => exact absurd hmem (List.not_mem_nil a)
  | cons u ut ih =>
    rcases List.mem_cons.mp hmem with rfl | hmem2
    · simp only [List.map_cons, List.sum_cons]
      have hz : (ut.map fun u2 => if a == u2 then k else 0).sum = 0 := by
        apply List.sum_eq_zero
        intro x hx
        rcases List.mem_map.mp hx with ⟨u2, hu2, hxu⟩
        have hne : a ≠ u2 := by
          intro hEq
          rw [hEq] at hnd
          exact (List.nodup_cons.mp hnd).1 hu2
        rw [← hxu, if_neg (by simpa using hne)]
      rw [hz]
      simp
    · have hne : ¬(a == u) = true := by
        simp only [beq_iff_eq]
        intro hEq
        rw [← hEq] at hnd
        exact (List.nodup_cons.mp hnd).1 hmem2
      simp only [List.map_cons, List.sum_cons, if_neg hne]
      rw [ih (List.nodup_cons.mp hnd).2 hmem2]
      omega

/-- Summing a weight over entry rows grouped by owning container
equals summing it over all entry rows, provided container identities
are distinct and every row references one of them. -/
lemma double_count (us : List (Nat × Nat)) (fs : List FileRow)
    (g : FileRow → Nat) (hnd : us.Nodup)
    (href : ∀ f ∈ fs, f.zip_uuid ∈ us) :
    (us.map fun u => ((fs.filter fun f => f.zip_uuid == u).map g).sum).sum =
      (fs.map g).sum := by
  induction fs with
  | nil => simp
  | cons f ft ih =>
    have hstep : us.map (fun u =>
        (((f :: ft).filter fun x => x.zip_uuid == u).map g).sum) =
        us.map (fun u => (if f.zip_uuid == u then g f else 0) +
          ((ft.filter fun x => x.zip_uuid == u).map g).sum) := by
      apply List.map_congr_left
      intro u _
      by_cases hpu : (f.zip_uuid == u) = true
      · simp [List.filter_cons, hpu]
      · simp [List.filter_cons, hpu]
    rw [hstep, sum_map_add,
      sum_map_ite_unique us f.zip_uuid (g f) hnd (href f (by simp)),
      ih (fun x hx => href x (by simp [hx]))]
    simp

lemma length_as_sum_ones (l : List FileRow) :
    (l.map fun _ => (1 : Nat)).sum = l.length := by
  induction l with
  | nil => rfl
  | cons a t ih => simp [ih]; omega

/-! ## The per-volume pipeline on fresh content -/

lemma process_zip_file_insert (iv : String → Bool) (gdl : String → String)
    (af : Bool) (db : Store) (z : ZipFile) (hfresh : z.path ∉ db.paths)
    (hne : scan_zip_for_videos iv z af ≠ []) :
    process_zip_file iv gdl af db z =
      .ok (insertedStore iv gdl af db z, 1,
        (scan_zip_for_videos iv z af).length) := by
  have hni : (scan_zip_for_videos iv z af).isEmpty = false := by
    cases hh : scan_zip_for_videos iv z af with
    | nil => exact absurd hh hne
    | cons a t => rfl
  simp only [process_zip_file, hni, Bool.false_eq_true, if_false]
  rw [insert_ok db z.path (scan_zip_for_videos iv z af) (gdl z.path) hne hfresh]
  rfl

lemma processZips_fresh (iv : String → Bool) (gdl : String → String)
    (af : Bool) : ∀ (zs : List ZipFile) (db : Store),
    (∀ p ∈ zs.map ZipFile.path, p ∉ db.paths) →
    (zs.map ZipFile.path).Nodup →
    ∃ db1 tz tv, processZips iv gdl af db zs = (db1, tz, tv, none) ∧
      db1.tag = db.tag ∧
      db1.zipCount = db.zipCount +
        (zs.filter fun z => !(scan_zip_for_videos iv z af).isEmpty).length ∧
      db1.fileCount = db.fileCount +
        (zs.map fun z => (scan_zip_for_videos iv z af).length).sum ∧
      db1.byteSum = db.byteSum +
        (zs.map fun z =>
          ((scan_zip_for_videos iv z af).map VideoFile.file_size).sum).sum ∧
      db1.paths = db.paths ++
        ((zs.filter fun z => !(scan_zip_for_videos iv z af).isEmpty).map
          ZipFile.path) ∧
      (db.wellFormed → db1.wellFormed) := by
  intro zs
  induction zs with
  | nil =>
    intro db _ _
    exact ⟨db, 0, 0, rfl, rfl, by simp, by simp, by simp, by simp,
      fun h => h⟩
  | cons z zs ih =>
    intro db hfresh hnd
    have hndc := hnd
    rw [List.map_cons, List.nodup_cons] at hndc
    have hzfresh : z.path ∉ db.paths := hfresh z.path (by simp)
    by_cases hscan : scan_zip_for_videos iv z af = []
    · obtain ⟨db1, tz, tv, heq, htag, hz, hf, hb, hp, hwf⟩ :=
        ih db (fun p hp2 => hfresh p (by simp [hp2])) hndc.2
      refine ⟨db1, 0 + tz, 0 + tv, ?_, htag, ?_, ?_, ?_, ?_, hwf⟩
      · simp only [processZips, process_zip_file_empty db hscan, heq]
      · simp [List.filter_cons, hscan, hz]
      · simp [hscan, hf]
      · simp [hscan, hb]
      · simp [List.filter_cons, hscan, hp]
    · have hstep := process_zip_file_insert iv gdl af db z hzfresh hscan
      have hfresh2 : ∀ p ∈ zs.map ZipFile.path,
          p ∉ (insertedStore iv gdl af db z).paths := by
        intro p hp2
        rw [insertedStore_paths]
        simp only [List.mem_append, List.mem_singleton]
        rintro (hmem | rfl)
        · exact hfresh p (by simp [hp2]) hmem
        · exact hndc.1 hp2
      obtain ⟨db1, tz, tv, heq, htag, hz, hf, hb, hp, hwf⟩ :=
        ih (insertedStore iv gdl af db z) hfresh2 hndc.2
      have hsne : (!(scan_zip_for_videos iv z af).isEmpty) = true := by
        cases hh : scan_zip_for_videos iv z af with
        | nil => exact absurd hh hscan
        | cons a t => rfl
      refine ⟨db1, 1 + tz, (scan_zip_for_videos iv z af).length + tv, ?_,
        ?_, ?_, ?_, ?_, ?_, ?_⟩
      · simp only [processZips, hstep, heq]
      · rw [htag, insertedStore_tag]
      · rw [hz, insertedStore_zipCount]
        simp [List.filter_cons, hsne]
        omega
      · rw [hf, insertedStore_fileCount]
        simp
        omega
      · rw [hb, insertedStore_byteSum]
        simp
        omega
      · rw [hp, insertedStore_paths]
        simp [List.filter_cons, hsne]
      · intro hdbwf
        exact hwf (insertedStore_wellFormed iv gdl af db z hdbwf)

lemma process_drive_fresh (iv : String → Bool) (gdl : String → String)
    (af : Bool) (v : Volume) (db : Store)
    (hfresh : ∀ p ∈ volPaths v, p ∉ db.paths)
    (hnd : (volPaths v).Nodup) :
    ∃ db1 r, process_drive iv gdl af db v = (db1, r) ∧
      db1.tag = db.tag ∧
      db1.zipCount = db.zipCount + volZipCountT iv af v ∧
      db1.fileCount = db.fileCount + volFileCountT iv af v ∧
      db1.byteSum = db.byteSum + volByteSumT iv af v ∧
      db1.paths = db.paths ++ volMatchedPaths iv af v ∧
      (db.wellFormed → db1.wellFormed) := by
  cases hfind : v.find with
  | error e =>
    refine ⟨db, ⟨v.drive, 0, 0, some e⟩, ?_, rfl, ?_, ?_, ?_, ?_, fun h => h⟩
    · simp [process_drive, hfind]
    all_goals simp [volZipCountT, volFileCountT, volByteSumT,
      volMatchedPaths, hfind]
  | ok zips =>
    have hfresh2 : ∀ p ∈ zips.map ZipFile.path, p ∉ db.paths := by
      intro p hp
      exact hfresh p (by simp [volPaths, hfind, hp])
    have hnd2 : (zips.map ZipFile.path).Nodup := by
      simpa [volPaths, hfind] using hnd
    obtain ⟨db1, tz, tv, heq, htag, hz, hf, hb, hp, hwf⟩ :=
      processZips_fresh iv gdl af zips db hfresh2 hnd2
    refine ⟨db1, ⟨v.drive, tz, tv, none⟩, ?_, htag, ?_, ?_, ?_, ?_, hwf⟩
    · simp [process_drive, hfind, heq]
    all_goals simp [volZipCountT, volFileCountT, volByteSumT,
      volMatchedPaths, hfind, hz, hf, hb, hp]

lemma volMatchedPaths_sublist (iv : String → Bool) (af : Bool)
    (v : Volume) : (volMatchedPaths iv af v).Sublist (volPaths v) := by
  cases hfind : v.find with
  | error e => simp [volMatchedPaths, volPaths, hfind]
  | ok zips =>
    simp only [volMatchedPaths, volPaths, hfind]
    exact List.Sublist.map ZipFile.path (List.filter_sublist zips)

lemma seq_fresh (iv : String → Bool) (gdl : String → String) (af : Bool) :
    ∀ (vols : List Volume) (db : Store),
    (∀ p ∈ contentPaths vols, p ∉ db.paths) → (contentPaths vols).Nodup →
    ((seqProcessAllDrives iv gdl af db vols).1.zipCount =
      db.zipCount + (vols.map (volZipCountT iv af)).sum) ∧
    ((seqProcessAllDrives iv gdl af db vols).1.fileCount =
      db.fileCount + (vols.map (volFileCountT iv af)).sum) ∧
    ((seqProcessAllDrives iv gdl af db vols).1.byteSum =
      db.byteSum + (vols.map (volByteSumT iv af)).sum) ∧
    ((seqProcessAllDrives iv gdl af db vols).1.paths =
      db.paths ++ vols.flatMap (volMatchedPaths iv af)) := by
  intro vols
  induction vols with
  | nil =>
    intro db _ _
    refine ⟨?_, ?_, ?_, ?_⟩ <;> simp [seqProcessAllDrives]
  | cons v vs ih =>
    intro db hfresh hnd
    have hsplit : contentPaths (v :: vs) = volPaths v ++ contentPaths vs := by
      simp [contentPaths]
    rw [hsplit] at hfresh hnd
    have hparts := List.nodup_append.mp hnd
    obtain ⟨db1, r, heq, htag, hz, hf, hb, hp, _⟩ :=
      process_drive_fresh iv gdl af v db
        (fun p hp2 => hfresh p (List.mem_append_left _ hp2)) hparts.1
    have hfresh2 : ∀ p ∈ contentPaths vs, p ∉ db1.paths := by
      intro p hp2
      rw [hp]
      simp only [List.mem_append]
      rintro (hmem | hmem)
      · exact hfresh p (List.mem_append_right _ hp2) hmem
      · have hpv : p ∈ volPaths v :=
          (volMatchedPaths_sublist iv af v).subset hmem
        exact hparts.2.2 hpv hp2
    obtain ⟨ih1, ih2, ih3, ih4⟩ := ih db1 hfresh2 hparts.2.1
    have hfst : (seqProcessAllDrives iv gdl af db (v :: vs)).1 =
        (seqProcessAllDrives iv gdl af db1 vs).1 := by
      simp only [seqProcessAllDrives, heq]
      cases hsucc : DriveProcessingResult.success r <;> simp [hsucc]
    rw [hfst]
    refine ⟨?_, ?_, ?_, ?_⟩
    · rw [ih1, hz]
      simp
      omega
    · rw [ih2, hf]
      simp
      omega
    · rw [ih3, hb]
      simp
      omega
    · rw [ih4, hp]
      simp [List.append_assoc]

lemma workerStore_spec (iv : String → Bool) (gdl : String → String)
    (af : Bool) (k : Nat) (v : Volume) (hnd : (volPaths v).Nodup) :
    (workerStore iv gdl af k v).zipCount = volZipCountT iv af v ∧
    (workerStore iv gdl af k v).fileCount = volFileCountT iv af v ∧
    (workerStore iv gdl af k v).byteSum = volByteSumT iv af v ∧
    (workerStore iv gdl af k v).paths = volMatchedPaths iv af v ∧
    (workerStore iv gdl af k v).wellFormed := by
  obtain ⟨db1, r, heq, htag, hz, hf, hb, hp, hwf⟩ :=
    process_drive_fresh iv gdl af v (emptyStore (k + 1))
      (by simp [emptyStore, Store.paths]) hnd
  have hws : workerStore iv gdl af k v = db1 := by
    rw [workerStore, heq]
  rw [hws]
  refine ⟨?_, ?_, ?_, ?_, hwf (emptyStore_wellFormed (k + 1))⟩
  · rw [hz]; simp [emptyStore, Store.zipCount]
  · rw [hf]; simp [emptyStore, Store.fileCount]
  · rw [hb]; simp [emptyStore, Store.byteSum]
  · rw [hp]; simp [emptyStore, Store.paths]

lemma workerStoresFrom_spec (iv : String → Bool) (gdl : String → String)
    (af : Bool) : ∀ (vols : List Volume) (k : Nat),
    (∀ v ∈ vols, (volPaths v).Nodup) →
    ((workerStoresFrom iv gdl af k vols).map Store.zipCount =
      vols.map (volZipCountT iv af)) ∧
    ((workerStoresFrom iv gdl af k vols).map Store.fileCount =
      vols.map (volFileCountT iv af)) ∧
    ((workerStoresFrom iv gdl af k vols).map Store.byteSum =
      vols.map (volByteSumT iv af)) ∧
    ((workerStoresFrom iv gdl af k vols).flatMap Store.paths =
      vols.flatMap (volMatchedPaths iv af)) ∧
    (∀ w ∈ workerStoresFrom iv gdl af k vols, w.wellFormed) := by
  intro vols
  induction vols with
  | nil =>
    intro k _
    refine ⟨rfl, rfl, rfl, rfl, ?_⟩
    simp [workerStoresFrom]
  | cons v vs ih =>
    intro k hnd
    obtain ⟨h1, h2, h3, h4, h5⟩ := workerStore_spec iv gdl af k v
      (hnd v (by simp))
    obtain ⟨ih1, ih2, ih3, ih4, ih5⟩ := ih (k + 1)
      (fun v2 hv2 => hnd v2 (by simp [hv2]))
    refine ⟨?_, ?_, ?_, ?_, ?_⟩
    · simp [workerStoresFrom, h1, ih1]
    · simp [workerStoresFrom, h2, ih2]
    · simp [workerStoresFrom, h3, ih3]
    · simp [workerStoresFrom, h4, ih4]
    · intro w hw
      simp only [workerStoresFrom, List.mem_cons] at hw
      rcases hw with rfl | hw
      · exact h5
      · exact ih5 w hw

/-! ## Merging fresh worker stores: counts are additive -/

lemma pairs_map_snd (db : Store) : db.pairs.map Prod.snd = db.paths := by
  rw [Store.pairs, List.map_map]
  exact List.map_congr_left fun z _ => rfl

lemma mem_pairs_snd {db : Store} {q : String × String} (h : q ∈ db.pairs) :
    q.2 ∈ db.paths := by
  rw [← pairs_map_snd]
  exact List.mem_map_of_mem Prod.snd h

lemma mergeFold_fresh_shape (w : Store) : ∀ (zs : List ZipRow) (c : Store)
    (s : MergeSummary), (∀ z ∈ zs, pairKey z ∉ c.pairs) →
    (zs.map pairKey).Nodup →
    zs.foldl (mergeStep w) (c, s) =
      (⟨c.tag, c.nextId, c.zip_files ++ zs,
        c.file_contents ++ zs.flatMap fun z =>
          w.file_contents.filter fun f => f.zip_uuid == z.uuid⟩,
       ⟨s.containersMerged + zs.length,
        s.entriesMerged + (zs.map fun z =>
          (w.file_contents.filter fun f => f.zip_uuid == z.uuid).length).sum,
        s.conflicts⟩) := by
  intro zs
  induction zs with
  | nil =>
    intro c s _ _
    simp
  | cons z t ih =>
    intro c s hfresh hnd
    have hndc := hnd
    rw [List.map_cons, List.nodup_cons] at hndc
    rw [List.foldl_cons, mergeStep_fresh w c s z (hfresh z (by simp))]
    have hfresh2 : ∀ z2 ∈ t, pairKey z2 ∉
        (Store.mk c.tag c.nextId (c.zip_files ++ [z])
          (c.file_contents ++ w.file_contents.filter fun f =>
            f.zip_uuid == z.uuid)).pairs := by
      intro z2 hz2
      simp only [Store.pairs, List.map_append, List.mem_append, List.map_cons,
        List.map_nil, List.mem_singleton]
      rintro (hmem | hmem)
      · exact hfresh z2 (by simp [hz2]) hmem
      · exact hndc.1 (hmem ▸ List.mem_map_of_mem pairKey hz2)
    rw [ih _ _ hfresh2 hndc.2]
    simp only [Prod.mk.injEq, Store.mk.injEq, MergeSummary.mk.injEq]
    refine ⟨⟨trivial, trivial, ?_, ?_⟩, ?_, ?_, trivial⟩
    · simp
    · simp [List.flatMap_cons]
    · simp
      omega
    · simp
      omega

/-- Grouping entry rows by their owning container and summing a weight
gives the plain sum, in any well-formed store. -/
lemma grouped_sum (w : Store) (hwf : w.wellFormed) (g : FileRow → Nat) :
    (w.zip_files.map fun z =>
      ((w.file_contents.filter fun f => f.zip_uuid == z.uuid).map g).sum).sum =
    (w.file_contents.map g).sum := by
  have hdc := double_count (w.zip_files.map ZipRow.uuid) w.file_contents g
    hwf.1 hwf.2.1
  rw [List.map_map] at hdc
  have hcong : w.zip_files.map ((fun u =>
      ((w.file_contents.filter fun f => f.zip_uuid == u).map g).sum) ∘
        ZipRow.uuid) =
      w.zip_files.map (fun z =>
        ((w.file_contents.filter fun f => f.zip_uuid == z.uuid).map g).sum) :=
    List.map_congr_left fun z _ => rfl
  rw [hcong] at hdc
  exact hdc

lemma sum_map_flatMap {α : Type} (l : List α) (F : α → List FileRow)
    (g : FileRow → Nat) :
    ((l.flatMap F).map g).sum = (l.map fun a => ((F a).map g).sum).sum := by
  induction l with
  | nil => simp
  | cons a t ih => simp [List.flatMap_cons, ih]

lemma mergeWorkerStore_fresh_counts (c w : Store) (hwf : w.wellFormed)
    (hfresh : ∀ q ∈ w.pairs, q ∉ c.pairs) (hndp : w.paths.Nodup) :
    (mergeWorkerStore c w).1.zipCount = c.zipCount + w.zipCount ∧
    (mergeWorkerStore c w).1.fileCount = c.fileCount + w.fileCount ∧
    (mergeWorkerStore c w).1.byteSum = c.byteSum + w.byteSum ∧
    (mergeWorkerStore c w).1.paths = c.paths ++ w.paths := by
  have hfresh2 : ∀ z ∈ w.zip_files, pairKey z ∉ c.pairs := fun z hz =>
    hfresh (pairKey z) (List.mem_map_of_mem pairKey hz)
  have hmapsnd : (w.zip_files.map pairKey).map Prod.snd = w.paths := by
    rw [List.map_map]
    exact List.map_congr_left fun z _ => rfl
  have hndk : (w.zip_files.map pairKey).Nodup := by
    apply List.Nodup.of_map Prod.snd
    rw [hmapsnd]
    exact hndp
  rw [mergeWorkerStore,
    mergeFold_fresh_shape w w.zip_files c ⟨0, 0, []⟩ hfresh2 hndk]
  refine ⟨by simp [Store.zipCount], ?_, ?_, by simp [Store.paths]⟩
  · simp only [Store.fileCount, List.length_append]
    congr 1
    calc (w.zip_files.flatMap fun z =>
          w.file_contents.filter fun f => f.zip_uuid == z.uuid).length
        = ((w.zip_files.flatMap fun z =>
            w.file_contents.filter fun f => f.zip_uuid == z.uuid).map
              fun _ => (1 : Nat)).sum := (length_as_sum_ones _).symm
      _ = (w.zip_files.map fun z =>
            ((w.file_contents.filter fun f => f.zip_uuid == z.uuid).map
              fun _ => (1 : Nat)).sum).sum := sum_map_flatMap _ _ _
      _ = (w.file_contents.map fun _ => (1 : Nat)).sum :=
            grouped_sum w hwf _
      _ = w.file_contents.length := length_as_sum_ones _
  · simp only [Store.byteSum, List.map_append, List.sum_append]
    congr 1
    calc ((w.zip_files.flatMap fun z =>
          w.file_contents.filter fun f => f.zip_uuid == z.uuid).map
            FileRow.file_size).sum
        = (w.zip_files.map fun z =>
            ((w.file_contents.filter fun f => f.zip_uuid == z.uuid).map
              FileRow.file_size).sum).sum := sum_map_flatMap _ _ _
      _ = (w.file_contents.map FileRow.file_size).sum :=
            grouped_sum w hwf _

lemma mergeDb_fold_fst : ∀ (ws : List Store) (c : Store) (s : MergeSummary),
    (ws.foldl mergeDbStep (c, s)).1 =
      ws.foldl (fun c2 w => (mergeWorkerStore c2 w).1) c := by
  intro ws
  induction ws with
  | nil => intro c s; rfl
  | cons w t ih =>
    intro c s
    rw [List.foldl_cons, List.foldl_cons]
    simp only [mergeDbStep]
    exact ih _ _

lemma mergeAll_counts : ∀ (ws : List Store) (c : Store),
    (∀ w ∈ ws, w.wellFormed) → ((c.paths ++ ws.flatMap Store.paths).Nodup) →
    ((ws.foldl (fun c2 w => (mergeWorkerStore c2 w).1) c).zipCount =
      c.zipCount + (ws.map Store.zipCount).sum) ∧
    ((ws.foldl (fun c2 w => (mergeWorkerStore c2 w).1) c).fileCount =
      c.fileCount + (ws.map Store.fileCount).sum) ∧
    ((ws.foldl (fun c2 w => (mergeWorkerStore c2 w).1) c).byteSum =
      c.byteSum + (ws.map Store.byteSum).sum) ∧
    ((ws.foldl (fun c2 w => (mergeWorkerStore c2 w).1) c).paths =
      c.paths ++ ws.flatMap Store.paths) := by
  intro ws
  induction ws with
  | nil =>
    intro c _ _
    refine ⟨by simp, by simp, by simp, by simp⟩
  | cons w t ih =>
    intro c hwf hnd
    rw [List.flatMap_cons, ← List.append_assoc] at hnd
    have hcw : (c.paths ++ w.paths).Nodup := (List.nodup_append.mp hnd).1
    have hdisj := (List.nodup_append.mp hcw).2.2
    have hfreshw : ∀ q ∈ w.pairs, q ∉ c.pairs := by
      intro q hq hqc
      exact hdisj (mem_pairs_snd hqc) (mem_pairs_snd hq)
    have hndw : w.paths.Nodup := (List.nodup_append.mp hcw).2.1
    obtain ⟨m1, m2, m3, m4⟩ := mergeWorkerStore_fresh_counts c w
      (hwf w (by simp)) hfreshw hndw
    have hnd2 : ((mergeWorkerStore c w).1.paths ++
        t.flatMap Store.paths).Nodup := by
      rw [m4]
      exact hnd
    obtain ⟨i1, i2, i3, i4⟩ := ih ((mergeWorkerStore c w).1)
      (fun w2 hw2 => hwf w2 (by simp [hw2])) hnd2
    rw [List.foldl_cons]
    refine ⟨?_, ?_, ?_, ?_⟩
    · rw [i1, m1]
      simp
      omega
    · rw [i2, m2]
      simp
      omega
    · rw [i3, m3]
      simp
      omega
    · rw [i4, m4]
      simp [List.flatMap_cons]

lemma merge_databases_counts (ws : List Store) (c : Store)
    (hwf : ∀ w ∈ ws, w.wellFormed)
    (hnd : (c.paths ++ ws.flatMap Store.paths).Nodup) :
    (merge_databases c ws).1.zipCount =
      c.zipCount + (ws.map Store.zipCount).sum ∧
    (merge_databases c ws).1.fileCount =
      c.fileCount + (ws.map Store.fileCount).sum ∧
    (merge_databases c ws).1.byteSum =
      c.byteSum + (ws.map Store.byteSum).sum ∧
    (merge_databases c ws).1.paths = c.paths ++ ws.flatMap Store.paths := by
  rw [merge_databases, mergeDb_fold_fst]
  exact mergeAll_counts ws c hwf hnd

lemma nodup_flatMap_parts {α β : Type} (f : α → List β) :
    ∀ l : List α, (l.flatMap f).Nodup → ∀ a ∈ l, (f a).Nodup := by
  intro l
  induction l with
  | nil => simp
  | cons x t ih =>
    intro hnd a ha
    rw [List.flatMap_cons] at hnd
    rcases List.mem_cons.mp ha with rfl | ha2
    · exact (List.nodup_append.mp hnd).1
    · exact ih (List.nodup_append.mp hnd).2.1 a ha2

lemma flatMap_sublist_flatMap {α β : Type} (f g : α → List β)
    (h : ∀ a, (f a).Sublist (g a)) :
    ∀ l : List α, (l.flatMap f).Sublist (l.flatMap g) := by
  intro l
  induction l with
  | nil => simp
  | cons x t ih =>
    rw [List.flatMap_cons, List.flatMap_cons]
    exact List.Sublist.append (h x) ih

/-- Claim C1: on any fixed filesystem content (distinct container
paths across volumes), a sequential run into a fresh canonical store
and a threaded run whose worker stores are merged in any completion
order leave the canonical store with the same container count, the
same entry count and the same total entry byte sum. -/
theorem sequential_parallel_same_counts (iv : String → Bool)
    (gdl : String → String) (af : Bool) (vols : List Volume)
    (ws : List Store) (hnd : (contentPaths vols).Nodup)
    (hperm : ws.Perm (workerStores iv gdl af vols)) :
    (merge_databases (emptyStore 0) ws).1.zipCount =
      (seqProcessAllDrives iv gdl af (emptyStore 0) vols).1.zipCount ∧
    (merge_databases (emptyStore 0) ws).1.fileCount =
      (seqProcessAllDrives iv gdl af (emptyStore 0) vols).1.fileCount ∧
    (merge_databases (emptyStore 0) ws).1.byteSum =
      (seqProcessAllDrives iv gdl af (emptyStore 0) vols).1.byteSum := by
  have hv : ∀ v ∈ vols, (volPaths v).Nodup :=
    nodup_flatMap_parts volPaths vols hnd
  obtain ⟨s1, s2, s3, _⟩ := seq_fresh iv gdl af vols (emptyStore 0)
    (by intro p hp; simp [emptyStore, Store.paths]) hnd
  obtain ⟨w1, w2, w3, w4, w5⟩ := workerStoresFrom_spec iv gdl af vols 0 hv
  have hws_wf : ∀ w ∈ ws, w.wellFormed := fun w hw => w5 w (hperm.subset hw)
  have hperm_flat : (ws.flatMap Store.paths).Perm
      ((workerStores iv gdl af vols).flatMap Store.paths) :=
    hperm.flatMap_right Store.paths
  have hmatched_nodup : ((workerStores iv gdl af vols).flatMap
      Store.paths).Nodup := by
    rw [workerStores, w4]
    exact List.Nodup.sublist
      (flatMap_sublist_flatMap _ _ (volMatchedPaths_sublist iv af) vols) hnd
  have hws_nodup : ((emptyStore 0).paths ++ ws.flatMap Store.paths).Nodup := by
    simp only [emptyStore, Store.paths, List.map_nil, List.nil_append]
    exact (hperm_flat.nodup_iff).mpr hmatched_nodup
  obtain ⟨g1, g2, g3, _⟩ := merge_databases_counts ws (emptyStore 0)
    hws_wf hws_nodup
  have hsz : (ws.map Store.zipCount).sum =
      (vols.map (volZipCountT iv af)).sum := by
    rw [(hperm.map Store.zipCount).sum_eq]
    rw [workerStores] at *
    rw [w1]
  have hsf : (ws.map Store.fileCount).sum =
      (vols.map (volFileCountT iv af)).sum := by
    rw [(hperm.map Store.fileCount).sum_eq, workerStores, w2]
  have hsb : (ws.map Store.byteSum).sum =
      (vols.map (volByteSumT iv af)).sum := by
    rw [(hperm.map Store.byteSum).sum_eq, workerStores, w3]
  refine ⟨?_, ?_, ?_⟩
  · rw [g1, s1, hsz]
  · rw [g2, s2, hsf]
  · rw [g3, s3, hsb]

/-- Claim C1 witness: the spec's example content — two volumes, one
container each, three matching entries each — processed with a
reversed merge order. -/
theorem sequential_parallel_same_counts_witness :
    ((contentPaths
        [⟨"/mnt/c", .ok [⟨"/mnt/c/GoogleTakeout/a.zip",
            .ok [⟨"v1.mp4", 1, false⟩, ⟨"v2.mp4", 2, false⟩,
                 ⟨"v3.mp4", 3, false⟩]⟩]⟩,
         ⟨"/mnt/d", .ok [⟨"/mnt/d/GoogleTakeout/b.zip",
            .ok [⟨"w1.mp4", 4, false⟩, ⟨"w2.mp4", 5, false⟩,
                 ⟨"w3.mp4", 6, false⟩]⟩]⟩]).Nodup) ∧
    ((merge_databases (emptyStore 0)
        (workerStores (fun _ => true) (fun _ => "X") false
          [⟨"/mnt/c", .ok [⟨"/mnt/c/GoogleTakeout/a.zip",
              .ok [⟨"v1.mp4", 1, false⟩, ⟨"v2.mp4", 2, false⟩,
                   ⟨"v3.mp4", 3, false⟩]⟩]⟩,
           ⟨"/mnt/d", .ok [⟨"/mnt/d/GoogleTakeout/b.zip",
              .ok [⟨"w1.mp4", 4, false⟩, ⟨"w2.mp4", 5, false⟩,
                   ⟨"w3.mp4", 6, false⟩]⟩]⟩]).reverse).1.zipCount =
      (seqProcessAllDrives (fun _ => true) (fun _ => "X") false
        (emptyStore 0)
        [⟨"/mnt/c", .ok [⟨"/mnt/c/GoogleTakeout/a.zip",
            .ok [⟨"v1.mp4", 1, false⟩, ⟨"v2.mp4", 2, false⟩,
                 ⟨"v3.mp4", 3, false⟩]⟩]⟩,
         ⟨"/mnt/d", .ok [⟨"/mnt/d/GoogleTakeout/b.zip",
            .ok [⟨"w1.mp4", 4, false⟩, ⟨"w2.mp4", 5, false⟩,
                 ⟨"w3.mp4", 6, false⟩]⟩]⟩]).1.zipCount) :=
  ⟨by decide,
   (sequential_parallel_same_counts (fun _ => true) (fun _ => "X") false
     [⟨"/mnt/c", .ok [⟨"/mnt/c/GoogleTakeout/a.zip",
         .ok [⟨"v1.mp4", 1, false⟩, ⟨"v2.mp4", 2, false⟩,
              ⟨"v3.mp4", 3, false⟩]⟩]⟩,
      ⟨"/mnt/d", .ok [⟨"/mnt/d/GoogleTakeout/b.zip",
         .ok [⟨"w1.mp4", 4, false⟩, ⟨"w2.mp4", 5, false⟩,
              ⟨"w3.mp4", 6, false⟩]⟩]⟩]
     (workerStores (fun _ => true) (fun _ => "X") false
       [⟨"/mnt/c", .ok [⟨"/mnt/c/GoogleTakeout/a.zip",
           .ok [⟨"v1.mp4", 1, false⟩, ⟨"v2.mp4", 2, false⟩,
                ⟨"v3.mp4", 3, false⟩]⟩]⟩,
        ⟨"/mnt/d", .ok [⟨"/mnt/d/GoogleTakeout/b.zip",
           .ok [⟨"w1.mp4", 4, false⟩, ⟨"w2.mp4", 5, false⟩,
                ⟨"w3.mp4", 6, false⟩]⟩]⟩]).reverse
     (by decide) (List.reverse_perm _)).1⟩

end PySearchZips
